import Mathlib

/-!
# Verification of the BO-VEST manual parser (`utils.py` / `parse_manuals.py`)

A shallow embedding of the text-extraction pipeline that converts the
BO-VEST sustainability-manual PDFs into nested JSON.  Python strings are
modelled as `String` / `List Char`; the regular expressions of the source
are translated operation by operation into executable matchers that follow
the backtracking behaviour of Python's `re` module on the concrete pattern
shapes used by the program; `dict` values are modelled by a JSON value
type; the external collaborators (pdfplumber pages, pandas data frames)
are modelled by explicit structures carrying exactly the data the source
reads from them.

Character classes (`\w`, `\s`, `\d`, upper/lower case) are modelled over
the alphabet the program actually processes: ASCII plus the Danish letters
Æ/Ø/Å and æ/ø/å.
-/

namespace OpenFrame

/-! ## Basic character helpers (Python `str` semantics) -/

/-- Python `\s` / `str.strip` whitespace, restricted to the ASCII range. -/
def isPySpace (c : Char) : Bool :=
  c == ' ' || c == '\n' || c == '\t' || c == '\x0b' || c == '\r' || c == '\x0c'

/-- Python `str.upper` on the modelled alphabet (ASCII plus æ/ø/å). -/
def pyUpperChar (c : Char) : Char :=
  if c == 'æ' then 'Æ' else if c == 'ø' then 'Ø' else if c == 'å' then 'Å' else c.toUpper

/-- Python `str.lower` on the modelled alphabet (ASCII plus Æ/Ø/Å). -/
def pyLowerChar (c : Char) : Char :=
  if c == 'Æ' then 'æ' else if c == 'Ø' then 'ø' else if c == 'Å' then 'å' else c.toLower

/-- Case-insensitive character comparison (`re.IGNORECASE`). -/
def foldEq (a b : Char) : Bool := pyUpperChar a == pyUpperChar b

/-- Python `str.upper` over a whole string. -/
def pyUpperS (s : String) : String := String.mk (s.data.map pyUpperChar)

/-- Python `str.strip` on a character list. -/
def pyStrip (l : List Char) : List Char :=
  ((l.dropWhile isPySpace).reverse.dropWhile isPySpace).reverse

/-- Python `str.strip` on a string. -/
def pyStripS (s : String) : String := String.mk (pyStrip s.data)

/-- Python `str.capitalize`: first character upper-cased, the rest lower-cased. -/
def pyCapitalize (s : String) : String :=
  match s.data with
  | [] => ""
  | c :: t => String.mk (pyUpperChar c :: t.map pyLowerChar)

/-- Match a literal pattern case-insensitively at the head of `s`,
returning the remainder on success. -/
def litCaseless : List Char → List Char → Option (List Char)
  | [], s => some s
  | _ :: _, [] => none
  | c :: pat, d :: s => if foldEq c d then litCaseless pat s else none

/-- Exact substring containment (Python `in` on `str`). -/
def containsSub (pat : List Char) : List Char → Bool
  | [] => pat.isEmpty
  | c :: t => pat.isPrefixOf (c :: t) || containsSub pat t

/-- Exact substring containment on strings. -/
def containsS (s pat : String) : Bool := containsSub pat.data s.data

/-- Index of the first occurrence of `pat` in `s` (Python `str.find`),
`none` when absent. -/
def pyFind (pat : List Char) : List Char → Option Nat
  | [] => if pat.isEmpty then some 0 else none
  | c :: t =>
    if pat.isPrefixOf (c :: t) then some 0
    else (pyFind pat t).map (· + 1)

/-- Python `"sep".join` for newline. -/
def joinNl : List String → String
  | [] => ""
  | [x] => x
  | x :: xs => x ++ "\n" ++ joinNl xs

/-- Python `" ".join` on character lists. -/
def joinSpace : List (List Char) → List Char
  | [] => []
  | [x] => x
  | x :: xs => x ++ ' ' :: joinSpace xs

/-- Line-break characters recognised by Python `str.splitlines`
(restricted to the ones producible by the program's inputs). -/
def isLineBreak (c : Char) : Bool :=
  c == '\n' || c == '\r' || c == '\x0b' || c == '\x0c'

/-- Worker for `pySplitlines`, with fuel bounding the recursion. -/
def splitlinesF : Nat → List Char → List (List Char)
  | 0, _ => []
  | _ + 1, [] => []
  | f + 1, s =>
    let line := s.takeWhile (fun c => !isLineBreak c)
    let rest := s.drop line.length
    let rest2 := match rest with
      | '\r' :: '\n' :: t => t
      | _ :: t => t
      | [] => []
    line :: splitlinesF f rest2

/-- Python `str.splitlines` (no trailing empty line; `\r\n` counts once). -/
def pySplitlines (s : List Char) : List (List Char) := splitlinesF (s.length + 1) s

/-! ## `detect_criteria` (utils.py lines 208-233) -/

/-- The hard-coded criterion keyword list of `detect_criteria`. -/
def criteriaKeywords : List String :=
  ["LIVET MELLEM NABOER", "BYGNINGER UNDERSTØTTER DET SOCIALE LIV",
   "STEDETS KVALITET", "ENERGI FORBRUG", "SUND BYGGERI OG INDEKLIMA",
   "DET GRØNNE", "CO2 UDLEDNING OG", "ANSVARLIGT MATERIALEFORBRUG"]

/-- Python `str.split("\n")` on a character list. -/
def splitNlChars : List Char → List (List Char)
  | [] => [[]]
  | c :: t =>
    let r := splitNlChars t
    if c == '\n' then [] :: r
    else
      match r with
      | h :: rest => (c :: h) :: rest
      | [] => [[c]]

/-- Python `str.split("\n")`. -/
def pySplitNl (s : String) : List String := (splitNlChars s.data).map String.mk

/-- Python `line.strip().split(":")[0]`. -/
def beforeColon (s : String) : String :=
  String.mk ((pyStrip s.data).takeWhile (fun c => !(c == ':')))

/-- One loop step of `detect_criteria`: append the criterion name when the
line holds a keyword and the name is new. -/
def detectStep (acc : List String) (line : String) : List String :=
  if criteriaKeywords.any (fun k => containsS (pyUpperS line) k) then
    let crit := beforeColon line
    if crit ∈ acc then acc else acc ++ [crit]
  else acc

/-- `detect_criteria`: keyword scan over the lines of the chunk, with the
hard-coded fallback `[""]` when nothing matches. -/
def detect_criteria (text_chunk : String) : List String :=
  let res := (pySplitNl text_chunk).foldl detectStep []
  if res.isEmpty then [""] else res

/-! ## `find_theme_pages` (utils.py lines 113-169) -/

/-- One theme entry `{'title': ..., 'page': ...}`. -/
structure ThemePage where
  title : String
  page : Nat
deriving Repr, DecidableEq

/-- The regex `MANUALEN\s*SOM\s*V[ÆA]RKT[ØO]J` (IGNORECASE) matched at the
head of the text. -/
def anchorAt (s : List Char) : Bool :=
  match litCaseless "MANUALEN".data s with
  | none => false
  | some s1 =>
    match litCaseless "SOM".data (s1.dropWhile isPySpace) with
    | none => false
    | some s2 =>
      match litCaseless "V".data (s2.dropWhile isPySpace) with
      | none => false
      | some s3 =>
        match s3 with
        | [] => false
        | c :: s4 =>
          if foldEq c 'Æ' || foldEq c 'A' then
            match litCaseless "RKT".data s4 with
            | none => false
            | some s5 =>
              match s5 with
              | [] => false
              | d :: s6 =>
                if foldEq d 'Ø' || foldEq d 'O' then
                  (litCaseless "J".data s6).isSome
                else false
          else false

/-- `re.search` of the anchor pattern: a match at some position. -/
def anchorSearch : List Char → Bool
  | [] => false
  | c :: t => anchorAt (c :: t) || anchorSearch t

/-- Step 1 of `find_theme_pages`: index of the first non-empty page whose
text matches the anchor regex. -/
def themeAnchorIdx (pages : List String) : Option Nat :=
  pages.findIdx? (fun t => !(t == "") && anchorSearch t.data)

/-- Step 2 of `find_theme_pages`: the upper-cased text that is scanned for
theme keywords (the anchor page, or the first 8 pages as fallback). -/
def scannedText (pages : List String) : String :=
  match themeAnchorIdx pages with
  | some i => pyUpperS (joinNl [pages.getD i ""])
  | none => pyUpperS (joinNl (pages.take 8))

/-- The three default theme entries used when no keyword matches. -/
def defaultThemes : List ThemePage :=
  [⟨"Det Sociale", 1⟩, ⟨"Indeklima, Energi og Miljø", 1⟩, ⟨"Materialer", 1⟩]

/-- The 1-based page number attached to a detected theme entry. -/
def anchorPageNum (pages : List String) : Nat :=
  match themeAnchorIdx pages with
  | some i => i + 1
  | none => 1

/-- `find_theme_pages`: detect the three themes on the anchor page, with
the hard-coded fallback when none is found. -/
def find_theme_pages (pages : List String) : List ThemePage :=
  let themes :=
    (if containsS (scannedText pages) "DET SOCIALE" then
      [ThemePage.mk "Det Sociale" (anchorPageNum pages)] else []) ++
    (if containsS (scannedText pages) "INDEKLIMA" ||
        containsS (scannedText pages) "ENERGI" ||
        containsS (scannedText pages) "MILJØ" then
      [ThemePage.mk "Indeklima, Energi og Miljø" (anchorPageNum pages)] else []) ++
    (if containsS (scannedText pages) "MATERIALER" then
      [ThemePage.mk "Materialer" (anchorPageNum pages)] else [])
  if themes.isEmpty then defaultThemes else themes

/-! ## `extract_description` (utils.py lines 66-110) -/

/-- Python `\w` (word character) on the modelled alphabet. -/
def isWordChar (c : Char) : Bool :=
  c.isAlphanum || c == '_' ||
  c == 'æ' || c == 'ø' || c == 'å' || c == 'Æ' || c == 'Ø' || c == 'Å'

/-- `text.replace("\n", " ")`. -/
def replaceNl (l : List Char) : List Char :=
  l.map (fun c => if c == '\n' then ' ' else c)

/-- Worker for `collapseRepeats` (fuel-bounded). -/
def collapseRepeatsF : Nat → List Char → List Char
  | 0, s => s
  | _ + 1, [] => []
  | f + 1, c :: t =>
    c :: collapseRepeatsF f (if isWordChar c then t.dropWhile (· == c) else t)

/-- `re.sub(r"(\w)\1+", r"\1", text)`: collapse runs of two or more equal
word characters to a single one. -/
def collapseRepeats (l : List Char) : List Char := collapseRepeatsF (l.length + 1) l

/-- `re.sub(r"[>/]+", "", text)`: drop every `>` and `/`. -/
def removeSlashes (l : List Char) : List Char :=
  l.filter (fun c => !(c == '>' || c == '/'))

/-- The regex `BO-?VEST\s+bæredygtighedsmanual[^.]*\.` (IGNORECASE) matched
at the head of `s`; returns the remainder after the match. -/
def matchDescAt (s : List Char) : Option (List Char) :=
  match litCaseless "BO".data s with
  | none => none
  | some s1 =>
    let s2 := match s1 with
      | '-' :: t => t
      | _ => s1
    match litCaseless "VEST".data s2 with
    | none => none
    | some s3 =>
      match s3 with
      | [] => none
      | c :: t =>
        if isPySpace c then
          match litCaseless "bæredygtighedsmanual".data (t.dropWhile isPySpace) with
          | none => none
          | some s5 =>
            match s5.dropWhile (fun c => !(c == '.')) with
            | '.' :: s7 => some s7
            | _ => none
        else none

/-- `re.search` of the description pattern: the leftmost matched substring. -/
def searchDesc : List Char → Option (List Char)
  | [] => none
  | c :: t =>
    match matchDescAt (c :: t) with
    | some rest => some (List.take ((c :: t).length - rest.length) (c :: t))
    | none => searchDesc t

/-- Either the matched description sentence or, as fallback, the input. -/
def descCore (s : List Char) : List Char :=
  match searchDesc s with
  | some g => g
  | none => s

/-- The regex `Bæredygtigheds\s*Manual\s*(NYBYG|RENOVERING|SIMPEL\s*SAG)?`
(IGNORECASE) matched at the head of `s`; remainder after the match. -/
def matchManualAt (s : List Char) : Option (List Char) :=
  match litCaseless "Bæredygtigheds".data s with
  | none => none
  | some s1 =>
    match litCaseless "Manual".data (s1.dropWhile isPySpace) with
    | none => none
    | some s2 =>
      let s3 := s2.dropWhile isPySpace
      match litCaseless "NYBYG".data s3 with
      | some r => some r
      | none =>
        match litCaseless "RENOVERING".data s3 with
        | some r => some r
        | none =>
          match (litCaseless "SIMPEL".data s3).bind
              (fun t => litCaseless "SAG".data (t.dropWhile isPySpace)) with
          | some r => some r
          | none => some s3

/-- The regex `Tegnestuen\s*Vandkunsten\s*Oktober\s*\d{4}` (IGNORECASE)
matched at the head of `s`; remainder after the match. -/
def matchTegnestuenAt (s : List Char) : Option (List Char) :=
  match litCaseless "Tegnestuen".data s with
  | none => none
  | some s1 =>
    match litCaseless "Vandkunsten".data (s1.dropWhile isPySpace) with
    | none => none
    | some s2 =>
      match litCaseless "Oktober".data (s2.dropWhile isPySpace) with
      | none => none
      | some s3 =>
        match s3.dropWhile isPySpace with
        | a :: b :: c :: d :: r =>
          if a.isDigit && b.isDigit && c.isDigit && d.isDigit then some r else none
        | _ => none

/-- `re.sub(pattern, "", text)`: delete every non-overlapping match,
scanning left to right (fuel-bounded; every match consumes at least one
character). -/
def scanDeleteF (matchAt : List Char → Option (List Char)) : Nat → List Char → List Char
  | 0, s => s
  | _ + 1, [] => []
  | f + 1, c :: t =>
    match matchAt (c :: t) with
    | some rest => scanDeleteF matchAt f rest
    | none => c :: scanDeleteF matchAt f t

/-- Delete all `Bæredygtigheds Manual …` header occurrences. -/
def subManual (l : List Char) : List Char := scanDeleteF matchManualAt (l.length + 1) l

/-- Delete all `Tegnestuen Vandkunsten Oktober <year>` footer occurrences. -/
def subTegnestuen (l : List Char) : List Char :=
  scanDeleteF matchTegnestuenAt (l.length + 1) l

/-- Worker for `collapseWs` (fuel-bounded). -/
def collapseWsF : Nat → List Char → List Char
  | 0, s => s
  | _ + 1, [] => []
  | f + 1, c :: t =>
    if isPySpace c then
      match t with
      | d :: _ =>
        if isPySpace d then ' ' :: collapseWsF f (t.dropWhile isPySpace)
        else c :: collapseWsF f t
      | [] => [c]
    else c :: collapseWsF f t

/-- `re.sub(r"\s{2,}", " ", text)`: replace runs of two or more whitespace
characters by a single space. -/
def collapseWs (l : List Char) : List Char := collapseWsF (l.length + 1) l

/-- Worker for `pyReplace` (fuel-bounded; the pattern is non-empty at every
call site). -/
def pyReplaceF (pat rep : List Char) : Nat → List Char → List Char
  | 0, s => s
  | _ + 1, [] => []
  | f + 1, c :: t =>
    if pat.isPrefixOf (c :: t) then
      rep ++ pyReplaceF pat rep f (List.drop pat.length (c :: t))
    else c :: pyReplaceF pat rep f t

/-- Python `str.replace`: replace every occurrence, left to right. -/
def pyReplace (pat rep l : List Char) : List Char := pyReplaceF pat rep (l.length + 1) l

/-- The whitespace-normalised input: `replace("\n", " ").strip()`. -/
def normBase (text : String) : List Char := pyStrip (replaceNl text.data)

/-- `extract_description`: normalise, collapse repeated letters, drop `>`
and `/`, isolate the BO-VEST sentence (or fall back to the whole text),
strip header and footer phrases, normalise spaces and expand `BO-VEST`. -/
def extract_description (text : String) : String :=
  String.mk (pyReplace "BO-VEST".data "BO-VEST bæredygtighedsmanual".data
    (pyStrip (collapseWs (subTegnestuen (subManual
      (descCore (removeSlashes (collapseRepeats (normBase text)))))))))

/-- No pattern of `extract_description` fires on the input: every rewriting
stage leaves the normalised text unchanged and the search pattern is absent. -/
def noPatterns (text : String) : Bool :=
  let t := normBase text
  collapseRepeats t == t && removeSlashes t == t && (searchDesc t).isNone &&
  subManual t == t && subTegnestuen t == t &&
  (let d := pyStrip (collapseWs t)
   pyReplace "BO-VEST".data "BO-VEST bæredygtighedsmanual".data d == d)

/-- The fully whitespace-normalised input (newlines to spaces, runs of
whitespace collapsed, ends stripped). -/
def wsNormalize (text : String) : String :=
  String.mk (pyStrip (collapseWs (normBase text)))

/-! ## The task-block regex of `build_task_group` (utils.py lines 434-437)

Pattern (MULTILINE, IGNORECASE):
`^<criterion>\s*:\s*\r?\n(?P<task_name>[A-ZÆØÅa-zæøå0-9\s\-\+&/,()]+)`
`(?=\r?\n\d{1,2}\b|\r?\nBeskrivelse|\r?\n[A-ZÆØÅ])` -/

/-- The character class of the `task_name` group. -/
def isTaskChar (c : Char) : Bool :=
  ('A' ≤ c && c ≤ 'Z') || ('a' ≤ c && c ≤ 'z') || c.isDigit || isPySpace c ||
  c == 'Æ' || c == 'Ø' || c == 'Å' || c == 'æ' || c == 'ø' || c == 'å' ||
  c == '-' || c == '+' || c == '&' || c == '/' || c == ',' || c == '(' || c == ')'

/-- The class `[A-ZÆØÅ]` under IGNORECASE. -/
def isLetterDk (c : Char) : Bool :=
  ('A' ≤ c && c ≤ 'Z') || ('a' ≤ c && c ≤ 'z') ||
  c == 'Æ' || c == 'Ø' || c == 'Å' || c == 'æ' || c == 'ø' || c == 'å'

/-- `True` when the list does not begin with a word character
(the `\b` condition after a digit). -/
def notWordNext : List Char → Bool
  | [] => true
  | c :: _ => !isWordChar c

/-- The lookahead after a consumed `\r?\n`:
`\d{1,2}\b` or `Beskrivelse` (caseless) or `[A-ZÆØÅ]` (caseless). -/
def afterNlLA (t : List Char) : Bool :=
  (match t with
   | a :: rest1 =>
     a.isDigit &&
       (match rest1 with
        | b :: rest2 => (b.isDigit && notWordNext rest2) || !isWordChar b
        | [] => true)
   | [] => false) ||
  (litCaseless "Beskrivelse".data t).isSome ||
  (match t with
   | c :: _ => isLetterDk c
   | [] => false)

/-- The full lookahead `(?=\r?\n ...)`. -/
def lookAheadOk (s : List Char) : Bool :=
  match s with
  | '\r' :: '\n' :: t => afterNlLA t
  | '\n' :: t => afterNlLA t
  | _ => false

/-- Indices `j` with `run[j] = '\n'`, in decreasing order (the backtracking
order of the greedy `\s*` before `\r?\n`). -/
def nlIndexesDesc (run : List Char) : List Nat :=
  ((List.range run.length).filter (fun j => run.getD j ' ' == '\n')).reverse

/-- Greedy search for the largest group length `k ∈ [1, n]` whose ending
position satisfies the lookahead. -/
def findGroupEnd (base : List Char) : Nat → Option Nat
  | 0 => none
  | k + 1 => if lookAheadOk (base.drop (k + 1)) then some (k + 1) else findGroupEnd base k

/-- First `some` produced by `f` over the list. -/
def firstSome (f : α → Option β) : List α → Option β
  | [] => none
  | a :: t =>
    match f a with
    | some b => some b
    | none => firstSome f t

/-- Try to match the task-block pattern at the head of `s`; on success
return the `task_name` group and the total number of consumed characters. -/
def matchCritAt (crit : List Char) (s : List Char) : Option (List Char × Nat) :=
  match litCaseless crit s with
  | none => none
  | some s1 =>
    let ws1 := s1.takeWhile isPySpace
    match s1.drop ws1.length with
    | ':' :: s3 =>
      let run := s3.takeWhile isPySpace
      let tail := s3.drop run.length
      let prefixLen := crit.length + ws1.length + 1
      firstSome (fun j =>
        let base := run.drop (j + 1) ++ tail
        let n := (base.takeWhile isTaskChar).length
        match findGroupEnd base n with
        | some k => some (base.take k, prefixLen + j + 1 + k)
        | none => none) (nlIndexesDesc run)
    | _ => none

/-- `re.finditer` over the text: scan positions left to right, matching
only at line starts (`^` with MULTILINE), and jump over each match. -/
def findMatchesF (crit : List Char) : Nat → Bool → List Char → List (List Char)
  | 0, _, _ => []
  | _ + 1, _, [] => []
  | f + 1, atStart, c :: t =>
    if atStart then
      match matchCritAt crit (c :: t) with
      | some (g, len) =>
        g :: findMatchesF crit f ((c :: t).getD (len - 1) ' ' == '\n') ((c :: t).drop len)
      | none => findMatchesF crit f (c == '\n') t
    else findMatchesF crit f (c == '\n') t

/-- All `task_name` groups matched for the given criterion. -/
def findMatches (crit text : List Char) : List (List Char) :=
  findMatchesF crit (text.length + 1) true text

/-! ## `clean_task_name` (utils.py lines 442-460) -/

/-- The `{'code': ..., 'title': ...}` output of `clean_task_name`. -/
structure TaskName where
  code : Option String
  title : String
deriving Repr, DecidableEq

/-- `re.fullmatch(r"\d+", line)`: a non-empty all-digit line. -/
def isDigitsLine (l : List Char) : Bool := !l.isEmpty && l.all Char.isDigit

/-- The stripped non-empty lines considered by `clean_task_name`, after
cutting everything from `"Beskrivelse"` on. -/
def cleanLines (text0 : String) : List (List Char) :=
  let text := match pyFind "Beskrivelse".data text0.data with
    | some i => pyStrip (text0.data.take i)
    | none => text0.data
  ((pySplitlines text).map pyStrip).filter (fun l => !l.isEmpty)

/-- `clean_task_name`: cut everything from `"Beskrivelse"` on, split into
stripped non-empty lines, take the first all-digit line as the code and
join the remaining lines as the title. -/
def clean_task_name (text0 : String) : TaskName :=
  let lines := cleanLines text0
  let code := lines.find? isDigitsLine
  let title := joinSpace (match code with
    | none => lines
    | some c => lines.filter (fun l => !(l == c)))
  { code := code.map String.mk, title := String.mk title }

/-! ## External collaborators: pdfplumber pages and pandas frames

A `Page` carries exactly what the source reads from a pdfplumber page:
its simple text and the raw `extract_table` result (cells modelled as
strings; `None` cells, which would make the Python code raise, are outside
the modelled input space). -/

structure Page where
  text : String
  table : Option (List (List String))
deriving Repr, DecidableEq

/-- The page used when an index is out of range (the claims under
verification only concern in-range indices; Python would raise there). -/
def defaultPage : Page := { text := "", table := none }

/-- The slice of `manual_meta` that the task builders read. -/
structure ManualMeta where
  url_base : String
  pages : List Page
deriving Repr, DecidableEq

/-- A pandas data frame as used by `extract_table_from_pdf`: named columns
over rows of optional cells (`none` models NaN). -/
structure DF where
  cols : List String
  rows : List (List (Option String))
deriving Repr, DecidableEq

/-- `pd.DataFrame(table[1:], columns=table[0])`: rows padded with NaN to
the column count (over-long rows are truncated). -/
def mkDF (header : List String) (dataRows : List (List String)) : DF :=
  { cols := header,
    rows := dataRows.map (fun r =>
      (r.map some).take header.length ++
      List.replicate (header.length - r.length) none) }

/-- Index of a column name, or the column count when absent. -/
def colIdx (df : DF) (c : String) : Nat := df.cols.findIdx (· == c)

/-- `df[c].tolist()`. -/
def colValues (df : DF) (c : String) : List (Option String) :=
  df.rows.map (fun r => r.getD (colIdx df c) none)

/-- `df.drop(c, axis=1)`. -/
def dropColDF (df : DF) (c : String) : DF :=
  { cols := df.cols.eraseIdx (colIdx df c),
    rows := df.rows.map (fun r => r.eraseIdx (colIdx df c)) }

/-- `join_all_texts_as_one` (utils.py lines 237-259): concatenate the
stripped lines, each followed by a space, into a one-element series
(empty when the buffer stays empty). -/
def join_all_texts_as_one (lines : List String) : List String :=
  let buffer := lines.foldl (fun b l => b ++ pyStripS l ++ " ") ""
  if buffer == "" then [] else [buffer]

/-- `df[c] = pd.Series(vals)`: index-aligned assignment; rows beyond the
series length receive NaN. -/
def setCol (df : DF) (c : String) (vals : List String) : DF :=
  { cols := df.cols,
    rows := (df.rows.enum).map (fun p => p.2.set (colIdx df c) (vals.get? p.1)) }

/-- `df.dropna()`: keep only the rows without NaN cells. -/
def dropna (df : DF) : DF :=
  { cols := df.cols, rows := df.rows.filter (fun r => r.all Option.isSome) }

/-- `extract_table_from_pdf` (utils.py lines 265-303). -/
def extract_table_from_pdf (pages : List Page) (page_number : Nat) : Option DF :=
  match (pages.getD (page_number - 1) defaultPage).table with
  | none => none
  | some [] => none
  | some (header :: dataRows) =>
    let df := mkDF header dataRows
    if !(df.cols.contains "dokumentationskrav") || !(df.cols.contains "krav") ||
       !(df.cols.contains "niveau") then
      some df
    else
      let df1 := dropColDF df "niveau"
      let df2 := setCol df1 "krav"
        (join_all_texts_as_one ((colValues df1 "krav").map (fun o => o.getD "")))
      let df3 := setCol df2 "dokumentationskrav"
        (join_all_texts_as_one ((colValues df2 "dokumentationskrav").map (fun o => o.getD "")))
      some (dropna df3)

/-! ## The description regex of `build_task_item` (utils.py lines 353-357)

`^(?:Beskrivelse|Arkitektonisk kvalitet|Drift og vedligehold)\s*\n`
`([\s\S]*?)(?=\n(?:Beskrivelse|Arkitektonisk kvalitet|Drift og vedligehold`
`|Hvordan kan projektet bidrage:|$))` with MULTILINE (case-sensitive). -/

/-- The three section headers of the alternation. -/
def descHeaders : List String :=
  ["Beskrivelse", "Arkitektonisk kvalitet", "Drift og vedligehold"]

/-- Match one of the headers exactly at the head of `s`; returns its length. -/
def matchHeaderAt (s : List Char) : Option Nat :=
  firstSome (fun h => if h.data.isPrefixOf s then some h.data.length else none) descHeaders

/-- The lookahead terminating the lazy group: a newline followed by a
header, by `Hvordan kan projektet bidrage:` or by `$` (end of line or of
the text, under MULTILINE). -/
def descLA (s : List Char) : Bool :=
  match s with
  | '\n' :: t =>
    descHeaders.any (fun h => h.data.isPrefixOf t) ||
    "Hvordan kan projektet bidrage:".data.isPrefixOf t ||
    (match t with
     | [] => true
     | '\n' :: _ => true
     | _ => false)
  | _ => false

/-- Lazy search: the smallest offset whose suffix satisfies the lookahead. -/
def findLazyEnd : List Char → Option Nat
  | [] => none
  | c :: t => if descLA (c :: t) then some 0 else (findLazyEnd t).map (· + 1)

/-- Try to match one description block at the head of `s`; on success
return the captured group and the total consumed length. -/
def matchDescBlockAt (s : List Char) : Option (List Char × Nat) :=
  match matchHeaderAt s with
  | none => none
  | some hlen =>
    let s1 := s.drop hlen
    let run := s1.takeWhile isPySpace
    let tail := s1.drop run.length
    firstSome (fun j =>
      let base := run.drop (j + 1) ++ tail
      match findLazyEnd base with
      | some k => some (base.take k, hlen + j + 1 + k)
      | none => if descLA [] then some ([], hlen + j + 1) else none)
      (nlIndexesDesc run)

/-- `re.findall` of the description pattern: all captured groups. -/
def findDescF : Nat → Bool → List Char → List (List Char)
  | 0, _, _ => []
  | _ + 1, _, [] => []
  | f + 1, atStart, c :: t =>
    if atStart then
      match matchDescBlockAt (c :: t) with
      | some (g, len) =>
        g :: findDescF f ((c :: t).getD (len - 1) ' ' == '\n') ((c :: t).drop len)
      | none => findDescF f (c == '\n') t
    else findDescF f (c == '\n') t

/-- All description-section matches in a page text. -/
def findDescMatches (text : List Char) : List (List Char) :=
  findDescF (text.length + 1) true text

/-- The HTML description template, with the matched sections substituted
for the placeholders `(P1)`, `(P2)`, `(P3)`. -/
def buildDescriptions (text : String) : String :=
  let ms := findDescMatches text.data
  let template := ("<strong>Beskrivelse</strong><br>(P1)" ++
    "<br><br><strong>Arkitektonisk kvalitet</strong><br>(P2)" ++
    "<br><br><strong>Drift og vedligehold</strong><br>(P3)")
  String.mk (ms.enum.foldl (fun acc p =>
    pyReplace ("(P" ++ toString (p.1 + 1) ++ ")").data (pyStrip p.2) acc) template.data)

/-! ## Task builders (utils.py lines 309-475) -/

/-- One entry of a task's documentation list (the `url` field is present
only on the leading pdf entry). -/
structure DocEntry where
  type : String
  label : String
  text : String
  url : Option String
deriving Repr, DecidableEq

/-- One selectable option of a task item. -/
structure OptionItem where
  id : String
  text : String
  value : Nat
deriving Repr, DecidableEq

/-- The `definition` of a task item. -/
structure TaskItemDef where
  type : String
  options : List OptionItem
deriving Repr, DecidableEq

/-- A task item. -/
structure TaskItem where
  type : String
  code : String
  definition : TaskItemDef
  excludeFromTargets : Bool
  description : String
deriving Repr, DecidableEq

/-- A task (`valueCalculationStrategy` and the display options of the
source are fixed constants and carried verbatim). -/
structure Task where
  type : String
  valueCalculationStrategy : String
  code : Option String
  title : String
  longFormTitle : String
  sortOrder : Nat
  documentation : List DocEntry
  items : List TaskItem
deriving Repr, DecidableEq

/-- A task group. -/
structure TaskGroup where
  type : String
  code : String
  title : String
  longFormTitle : String
  sortOrder : Nat
  items : List Task
deriving Repr, DecidableEq

/-- Python `f"{x}"` on an optional string (`None` prints as `"None"`). -/
def pyStrOpt : Option String → String
  | some s => s
  | none => "None"

/-- Enumerate starting from 1 (Python `enumerate(..., start=1)`). -/
def enumFrom1 (l : List α) : List (Nat × α) := l.enum.map (fun p => (p.1 + 1, p.2))

/-- `build_documentation` (utils.py lines 309-334).  The NaN-cell corner
(where Python's `row.strip()` would raise) is outside the modelled inputs;
NaN cells are skipped. -/
def build_documentation (page_number : Nat) (meta : ManualMeta) : List DocEntry :=
  let pdf_url := meta.url_base ++ "?page=" ++ toString page_number
  let documentations : List DocEntry :=
    match extract_table_from_pdf meta.pages page_number with
    | some df =>
      if df.cols.contains "dokumentationskrav" then
        (enumFrom1 (colValues df "dokumentationskrav")).filterMap (fun p =>
          match p.2 with
          | some s =>
            if !(s == "") && !(pyStripS s == "") then
              some { type := "text", label := "Dokumentationskrav",
                     text := toString p.1 ++ ") " ++ pyStripS s, url := none }
            else none
          | none => none)
      else []
    | none => []
  { type := "pdf", label := "Definition",
    text := "Manual (side " ++ toString page_number ++ ")",
    url := some pdf_url } :: documentations

/-- `build_task_item` (utils.py lines 340-374). -/
def build_task_item (task_num : Option String) (page_number : Nat)
    (meta : ManualMeta) : TaskItem :=
  let options : List OptionItem :=
    match extract_table_from_pdf meta.pages page_number with
    | some df =>
      if df.cols.contains "krav" then
        (enumFrom1 (colValues df "krav")).filterMap (fun p =>
          match p.2 with
          | some s =>
            if !(s == "") then
              some { id := "option." ++ toString p.1, text := pyStripS s, value := p.1 }
            else none
          | none => none)
      else []
    | none => []
  let text := (meta.pages.getD (page_number - 1) defaultPage).text
  { type := "task-item",
    code := pyStrOpt task_num ++ ".1",
    definition := { type := "select-single",
                    options := OptionItem.mk "option.0" "Ingen" 0 :: options },
    excludeFromTargets := false,
    description := buildDescriptions text }

/-- `build_task` (utils.py lines 380-405). -/
def build_task (index : Nat) (task_num : Option String) (task_title : String)
    (meta : ManualMeta) (page_number : Nat) : Task :=
  { type := "task",
    valueCalculationStrategy := "count",
    code := task_num,
    title := pyStripS task_title,
    longFormTitle := pyStripS task_title,
    sortOrder := index,
    documentation := build_documentation page_number meta,
    items := [build_task_item task_num page_number meta] }

/-- The `(task_num, task_name)` pairs collected by `build_task_group`:
every regex match, stripped and passed through `clean_task_name`. -/
def taskGroupTasks (criterion : String) (page_texts : String) :
    List (Option String × String) :=
  (findMatches criterion.data page_texts.data).map (fun g =>
    let out := clean_task_name (String.mk (pyStrip g))
    (out.code, out.title))

/-- `build_task_group` (utils.py lines 411-475). -/
def build_task_group (index : Nat) (criterion : String) (theme_code : String)
    (page_texts : String) (meta : ManualMeta) (start_page : Nat) : TaskGroup :=
  { type := "task-group",
    code := theme_code ++ "." ++ toString (index + 1),
    title := pyCapitalize criterion,
    longFormTitle := pyCapitalize criterion,
    sortOrder := index,
    items := (taskGroupTasks criterion page_texts).enum.map (fun p =>
      build_task p.1 p.2.1 p.2.2 meta start_page) }

/-! ## JSON values (`build_json_structure` and `save_json`)

Python values serialised by `json.dump`: `None`, booleans, integers,
strings, lists and string-keyed dicts, plus the non-finite floats
`nan`/`inf`/`-inf` that `json.dump` emits as `NaN`/`Infinity`/`-Infinity`
(finite floats and non-string dict keys are outside the modelled space). -/

mutual
inductive JValue where
  | null : JValue
  | bool : Bool → JValue
  | int : Int → JValue
  | nan : JValue
  | inf : JValue
  | ninf : JValue
  | str : String → JValue
  | arr : JList → JValue
  | obj : JObj → JValue
deriving Repr, DecidableEq

inductive JList where
  | nil : JList
  | cons : JValue → JList → JList
deriving Repr, DecidableEq

inductive JObj where
  | nil : JObj
  | cons : String → JValue → JObj → JObj
deriving Repr, DecidableEq
end

/-- Python `dict.get(k, d)` on a modelled manual_meta dictionary. -/
def dictGet (m : List (String × JValue)) (k : String) (d : JValue) : JValue :=
  match m.find? (fun kv => kv.1 == k) with
  | some kv => kv.2
  | none => d

/-- `build_json_structure` (utils.py lines 536-551); `nowIso` stands for
the external `datetime.utcnow().isoformat()` value. -/
def build_json_structure (nowIso : String) (manual_meta : List (String × JValue))
    (themes : JList) : JValue :=
  let version_obj : JValue :=
    .obj (.cons "version" (.str "1.0.0")
      (.cons "date" (.str (nowIso ++ "Z"))
        (.cons "themes" (.arr themes) .nil)))
  .obj (.cons "id" (dictGet manual_meta "id" (.str ""))
    (.cons "name" (dictGet manual_meta "name" (.str ""))
      (.cons "shortName" (dictGet manual_meta "shortName" (.str ""))
        (.cons "group" (dictGet manual_meta "group" (.str "bovest"))
          (.cons "description" (dictGet manual_meta "description" (.str ""))
            (.cons "versions" (.arr (.cons version_obj .nil)) .nil))))))

/-- Keys of a JSON object (empty for non-objects). -/
def objMemberKeys : JObj → List String
  | .nil => []
  | .cons k _ tl => k :: objMemberKeys tl

/-- Top-level keys of a JSON value. -/
def objKeys : JValue → List String
  | .obj ms => objMemberKeys ms
  | _ => []

/-- Lookup of a key in a JSON object value. -/
def jLookup : JValue → String → Option JValue
  | .obj ms, k => jLookupObj ms k
  | _, _ => none
where jLookupObj : JObj → String → Option JValue
  | .nil, _ => none
  | .cons k v tl, k0 => if k == k0 then some v else jLookupObj tl k0

/-- Elements of a JSON list as a Lean list. -/
def jElems : JList → List JValue
  | .nil => []
  | .cons v tl => v :: jElems tl

/-! ## The serialiser of `save_json`: `json.dump(obj, indent=2, ensure_ascii=False)` -/

/-- A lowercase hex digit. -/
def hexDigit (n : Nat) : Char :=
  if n < 10 then Char.ofNat (48 + n) else Char.ofNat (87 + n)

/-- The escape sequence `json.dump` emits for one character
(`ensure_ascii=False`: only `"`, `\` and control characters are escaped). -/
def escChar (c : Char) : List Char :=
  if c == '"' then ['\\', '"']
  else if c == '\\' then ['\\', '\\']
  else if c == '\n' then ['\\', 'n']
  else if c == '\t' then ['\\', 't']
  else if c == '\r' then ['\\', 'r']
  else if c == '\x08' then ['\\', 'b']
  else if c == '\x0c' then ['\\', 'f']
  else if c.toNat < 32 then
    ['\\', 'u', '0', '0', hexDigit (c.toNat / 16), hexDigit (c.toNat % 16)]
  else [c]

/-- Escape a whole character list. -/
def escList : List Char → List Char
  | [] => []
  | c :: t => escChar c ++ escList t

/-- A serialised JSON string literal. -/
def serStr (s : String) : List Char := '"' :: (escList s.data ++ ['"'])

/-- Decimal digits of a natural number (no leading zeros; `"0"` for 0). -/
def natChars (n : Nat) : List Char :=
  if h : n < 10 then [Char.ofNat (48 + n)]
  else natChars (n / 10) ++ [Char.ofNat (48 + n % 10)]
decreasing_by exact Nat.div_lt_self (by omega) (by omega)

/-- Python `str` of an integer. -/
def intChars (n : Int) : List Char :=
  if n < 0 then '-' :: natChars (-n).toNat else natChars n.toNat

/-- Newline plus the indentation of nesting depth `ind` (`indent=2`). -/
def nlInd (ind : Nat) : List Char := '\n' :: List.replicate (2 * ind) ' '

mutual
/-- Serialise a value at nesting depth `ind`. -/
def serVal (ind : Nat) : JValue → List Char
  | .null => 'n' :: ['u', 'l', 'l']
  | .bool true => 't' :: ['r', 'u', 'e']
  | .bool false => 'f' :: ['a', 'l', 's', 'e']
  | .int n => intChars n
  | .nan => ['N', 'a', 'N']
  | .inf => ['I', 'n', 'f', 'i', 'n', 'i', 't', 'y']
  | .ninf => ['-', 'I', 'n', 'f', 'i', 'n', 'i', 't', 'y']
  | .str s => serStr s
  | .arr .nil => ['[', ']']
  | .arr (.cons v tl) =>
    '[' :: (nlInd (ind + 1) ++ serVal (ind + 1) v ++ serListRest (ind + 1) tl ++
            nlInd ind ++ [']'])
  | .obj .nil => ['{', '}']
  | .obj (.cons k v tl) =>
    '{' :: (nlInd (ind + 1) ++ serStr k ++ ':' :: ' ' :: serVal (ind + 1) v ++
            serObjRest (ind + 1) tl ++ nlInd ind ++ ['}'])

/-- Serialise the remaining list elements. -/
def serListRest (ind : Nat) : JList → List Char
  | .nil => []
  | .cons v tl => ',' :: (nlInd ind ++ serVal ind v ++ serListRest ind tl)

/-- Serialise the remaining object members. -/
def serObjRest (ind : Nat) : JObj → List Char
  | .nil => []
  | .cons k v tl =>
    ',' :: (nlInd ind ++ serStr k ++ ':' :: ' ' :: serVal ind v ++ serObjRest ind tl)
end

/-- `json.dumps(v, ensure_ascii=False, indent=2)` as written by `save_json`. -/
def dumps (v : JValue) : String := String.mk (serVal 0 v)

/-! ## A JSON parser (`json.load`) -/

/-- JSON whitespace. -/
def isJsonWs (c : Char) : Bool := c == ' ' || c == '\n' || c == '\t' || c == '\r'

/-- Value of one hex digit. -/
def hexVal (c : Char) : Option Nat :=
  if '0' ≤ c && c ≤ '9' then some (c.toNat - 48)
  else if 'a' ≤ c && c ≤ 'f' then some (c.toNat - 87)
  else if 'A' ≤ c && c ≤ 'F' then some (c.toNat - 55)
  else none

/-- Unescape one single-character escape. -/
def unescape (e : Char) : Option Char :=
  if e == '"' then some '"'
  else if e == '\\' then some '\\'
  else if e == '/' then some '/'
  else if e == 'n' then some '\n'
  else if e == 't' then some '\t'
  else if e == 'r' then some '\r'
  else if e == 'b' then some '\x08'
  else if e == 'f' then some '\x0c'
  else none

/-- Parse a string body after the opening quote; returns the decoded
characters and the remainder after the closing quote. -/
def parseStrBody : List Char → Option (List Char × List Char)
  | [] => none
  | c :: r =>
    if c == '"' then some ([], r)
    else if c == '\\' then
      match r with
      | [] => none
      | e :: r1 =>
        if e == 'u' then
          match r1 with
          | a :: b :: c2 :: d :: r2 =>
            match hexVal a, hexVal b, hexVal c2, hexVal d with
            | some x, some y, some z, some w =>
              match parseStrBody r2 with
              | some (l, rest) =>
                some (Char.ofNat (((x * 16 + y) * 16 + z) * 16 + w) :: l, rest)
              | none => none
            | _, _, _, _ => none
          | _ => none
        else
          match unescape e with
          | some u =>
            match parseStrBody r1 with
            | some (l, rest) => some (u :: l, rest)
            | none => none
          | none => none
    else
      match parseStrBody r with
      | some (l, rest) => some (c :: l, rest)
      | none => none

/-- Digits to a natural number. -/
def digitsToNat (ds : List Char) : Nat :=
  ds.foldl (fun a c => 10 * a + (c.toNat - 48)) 0

/-- Parse an unsigned integer (floats are outside the modelled space). -/
def parsePosInt (s : List Char) : Option (Nat × List Char) :=
  let ds := s.takeWhile Char.isDigit
  if ds.isEmpty then none
  else
    match s.drop ds.length with
    | c :: rest =>
      if c == '.' || c == 'e' || c == 'E' then none
      else some (digitsToNat ds, c :: rest)
    | [] => some (digitsToNat ds, [])

/-- Parse a JSON number (integers only). -/
def parseNumber (s : List Char) : Option (JValue × List Char) :=
  match s with
  | [] => none
  | c :: t =>
    if c == '-' then (parsePosInt t).map (fun p => (.int (-(p.1 : Int)), p.2))
    else (parsePosInt (c :: t)).map (fun p => (.int (p.1 : Int), p.2))

mutual
/-- Parse one JSON value (fuel-bounded recursion). -/
def parseVal : Nat → List Char → Option (JValue × List Char)
  | 0, _ => none
  | fuel + 1, s0 =>
    let s := s0.dropWhile isJsonWs
    if ['n', 'u', 'l', 'l'].isPrefixOf s then some (.null, s.drop 4)
    else if ['t', 'r', 'u', 'e'].isPrefixOf s then some (.bool true, s.drop 4)
    else if ['f', 'a', 'l', 's', 'e'].isPrefixOf s then some (.bool false, s.drop 5)
    else if ['N', 'a', 'N'].isPrefixOf s then some (.nan, s.drop 3)
    else if ['I', 'n', 'f', 'i', 'n', 'i', 't', 'y'].isPrefixOf s then some (.inf, s.drop 8)
    else if ['-', 'I', 'n', 'f', 'i', 'n', 'i', 't', 'y'].isPrefixOf s then
      some (.ninf, s.drop 9)
    else
      match s with
      | [] => none
      | c :: r =>
        if c == '"' then (parseStrBody r).map (fun p => (.str (String.mk p.1), p.2))
        else if c == '[' then
          let r1 := r.dropWhile isJsonWs
          if r1.headD 'x' == ']' then some (.arr .nil, r1.tail)
          else (parseElems fuel r).map (fun p => (.arr p.1, p.2))
        else if c == '{' then
          let r1 := r.dropWhile isJsonWs
          if r1.headD 'x' == '}' then some (.obj .nil, r1.tail)
          else (parseMembers fuel r).map (fun p => (.obj p.1, p.2))
        else parseNumber (c :: r)

/-- Parse the elements of a non-empty array, through the closing bracket. -/
def parseElems : Nat → List Char → Option (JList × List Char)
  | 0, _ => none
  | fuel + 1, s =>
    match parseVal fuel s with
    | none => none
    | some (v, r0) =>
      match r0.dropWhile isJsonWs with
      | [] => none
      | c :: r2 =>
        if c == ',' then (parseElems fuel r2).map (fun p => (.cons v p.1, p.2))
        else if c == ']' then some (.cons v .nil, r2)
        else none

/-- Parse the members of a non-empty object, through the closing brace. -/
def parseMembers : Nat → List Char → Option (JObj × List Char)
  | 0, _ => none
  | fuel + 1, s0 =>
    match s0.dropWhile isJsonWs with
    | [] => none
    | c :: r =>
      if c == '"' then
        match parseStrBody r with
        | none => none
        | some (k, r1) =>
          match r1.dropWhile isJsonWs with
          | [] => none
          | d :: r3 =>
            if d == ':' then
              match parseVal fuel r3 with
              | none => none
              | some (v, r4) =>
                match r4.dropWhile isJsonWs with
                | [] => none
                | e :: r6 =>
                  if e == ',' then
                    (parseMembers fuel r6).map (fun p => (.cons (String.mk k) v p.1, p.2))
                  else if e == '}' then some (.cons (String.mk k) v .nil, r6)
                  else none
            else none
      else none
end

/-- `json.load` on a string: parse one value and require only whitespace
after it. -/
def parseJson (s : String) : Option JValue :=
  match parseVal (s.data.length + 1) s.data with
  | some (v, rest) => if (rest.dropWhile isJsonWs).isEmpty then some v else none
  | none => none

/-! ## Python equality and NaN-freedom -/

mutual
/-- Python `==` on round-tripped JSON values.  `nan != nan` in Python; the
values compared here come back from `json.load` in original member order,
so ordered member comparison coincides with Python's dict equality. -/
def pyEqV : JValue → JValue → Bool
  | .null, .null => true
  | .bool a, .bool b => a == b
  | .int a, .int b => a == b
  | .nan, _ => false
  | .inf, .inf => true
  | .ninf, .ninf => true
  | .str a, .str b => a == b
  | .arr a, .arr b => pyEqL a b
  | .obj a, .obj b => pyEqO a b
  | _, _ => false

def pyEqL : JList → JList → Bool
  | .nil, .nil => true
  | .cons a ta, .cons b tb => pyEqV a b && pyEqL ta tb
  | _, _ => false

def pyEqO : JObj → JObj → Bool
  | .nil, .nil => true
  | .cons ka va ta, .cons kb vb tb => ka == kb && pyEqV va vb && pyEqO ta tb
  | _, _ => false
end

mutual
/-- The value contains no NaN or infinite float. -/
def noNaNV : JValue → Bool
  | .nan => false
  | .inf => false
  | .ninf => false
  | .arr l => noNaNL l
  | .obj m => noNaNO m
  | _ => true

def noNaNL : JList → Bool
  | .nil => true
  | .cons v tl => noNaNV v && noNaNL tl

def noNaNO : JObj → Bool
  | .nil => true
  | .cons _ v tl => noNaNV v && noNaNO tl
end

mutual
/-- Fuel weight of a value: an upper bound on the recursion depth the
parser needs. -/
def wVal : JValue → Nat
  | .arr l => wList l + 1
  | .obj m => wObj m + 1
  | _ => 1

def wList : JList → Nat
  | .nil => 1
  | .cons v tl => wVal v + wList tl + 1

def wObj : JObj → Nat
  | .nil => 1
  | .cons _ v tl => wVal v + wObj tl + 1
end

/-! ## Auxiliary definitions for the JSON round-trip statements -/

/-- All characters are JSON whitespace. -/
def allWs (l : List Char) : Bool := l.all isJsonWs

/-- The remainder after a serialised number may not continue the number. -/
def safeFollow : List Char → Bool
  | [] => true
  | c :: _ => !(c.isDigit || c == '.' || c == 'e' || c == 'E')

/-! ## Concrete instances used by the claims -/

/-- Metadata with a single blank page (the block text carries the
extraction-relevant content). -/
def c1Meta : ManualMeta := { url_base := "u", pages := [{ text := "", table := none }] }

/-- The block named by the specification for task extraction. -/
def c1Block : String := "SOCIAL LIV:\n01\nFælles gård"

/-- Text with two task blocks carrying the same code `01`. -/
def dupDemoText : String :=
  "SOCIAL LIV:\n01\nAaa\nBeskrivelse\nSOCIAL LIV:\n01\nBbb\nBeskrivelse"

/-- A manual_meta dictionary holding a NaN value. -/
def c5CexRoot : JValue :=
  build_json_structure "2024-01-01T00:00:00" [("id", JValue.nan)] JList.nil

/-! # Theorems -/

/-! ## C7: `detect_criteria` fallback -/

theorem foldl_detectStep_id (lines : List String) (acc : List String)
    (h : ∀ l ∈ lines, criteriaKeywords.any (fun k => containsS (pyUpperS l) k) = false) :
    lines.foldl detectStep acc = acc := by
  induction lines generalizing acc with
  | nil => rfl
  | cons l t ih =>
    have hl := h l (by simp)
    simp only [List.foldl_cons, detectStep, hl, Bool.false_eq_true, if_false]
    exact ih acc (fun x hx => h x (by simp [hx]))

/-- C7: for every text chunk none of whose lines contains a criterion
keyword, `detect_criteria` returns the hardcoded non-empty fallback list
`[""]` (one empty criterion name) rather than an empty list. -/
theorem detect_criteria_fallback_nonempty (chunk : String)
    (h : ∀ l ∈ pySplitNl chunk,
      criteriaKeywords.any (fun k => containsS (pyUpperS l) k) = false) :
    detect_criteria chunk = [""] ∧ detect_criteria chunk ≠ [] := by
  have : detect_criteria chunk = [""] := by
    unfold detect_criteria
    rw [foldl_detectStep_id _ _ h]
    rfl
  exact ⟨this, by simp [this]⟩

theorem detect_criteria_fallback_nonempty_witness :
    detect_criteria "hello\nworld" = [""] ∧ detect_criteria "hello\nworld" ≠ [] :=
  detect_criteria_fallback_nonempty "hello\nworld" (by decide)

/-! ## C3: `find_theme_pages` fallback -/

/-- C3: when no theme keyword occurs in the scanned text, `find_theme_pages`
returns exactly the three default theme entries, each with page 1. -/
theorem find_theme_pages_fallback_defaults (pages : List String)
    (h1 : containsS (scannedText pages) "DET SOCIALE" = false)
    (h2 : containsS (scannedText pages) "INDEKLIMA" = false)
    (h3 : containsS (scannedText pages) "ENERGI" = false)
    (h4 : containsS (scannedText pages) "MILJØ" = false)
    (h5 : containsS (scannedText pages) "MATERIALER" = false) :
    find_theme_pages pages =
      [⟨"Det Sociale", 1⟩, ⟨"Indeklima, Energi og Miljø", 1⟩, ⟨"Materialer", 1⟩] := by
  unfold find_theme_pages
  simp [h1, h2, h3, h4, h5, defaultThemes]

theorem find_theme_pages_fallback_defaults_witness :
    find_theme_pages ["bla"] =
      [⟨"Det Sociale", 1⟩, ⟨"Indeklima, Energi og Miljø", 1⟩, ⟨"Materialer", 1⟩] :=
  find_theme_pages_fallback_defaults ["bla"]
    (by decide) (by decide) (by decide) (by decide) (by decide)

/-! ## C2: `find_theme_pages` with all keywords on the anchor page -/

/-- C2: when some page matches the `Manualen som Værktøj` anchor (the first
such page having index `i`) and that page, upper-cased, contains the
keywords of all three themes, `find_theme_pages` returns exactly the three
fixed theme titles in their fixed order, each located on page `i + 1`. -/
theorem find_theme_pages_three_keywords (pages : List String) (i : Nat)
    (hidx : themeAnchorIdx pages = some i)
    (h1 : containsS (pyUpperS (pages.getD i "")) "DET SOCIALE" = true)
    (h2 : (containsS (pyUpperS (pages.getD i "")) "INDEKLIMA" ||
           containsS (pyUpperS (pages.getD i "")) "ENERGI" ||
           containsS (pyUpperS (pages.getD i "")) "MILJØ") = true)
    (h3 : containsS (pyUpperS (pages.getD i "")) "MATERIALER" = true) :
    find_theme_pages pages =
      [⟨"Det Sociale", i + 1⟩, ⟨"Indeklima, Energi og Miljø", i + 1⟩,
       ⟨"Materialer", i + 1⟩] := by
  have hscan : scannedText pages = pyUpperS (pages.getD i "") := by
    unfold scannedText
    rw [hidx]
    rfl
  have hpn : anchorPageNum pages = i + 1 := by
    unfold anchorPageNum
    rw [hidx]
  unfold find_theme_pages
  rw [hscan, hpn, h1, h2, h3]
  simp

theorem find_theme_pages_three_keywords_witness :
    find_theme_pages ["", "Manualen som Værktøj\nDET SOCIALE\nINDEKLIMA\nMATERIALER"] =
      [⟨"Det Sociale", 2⟩, ⟨"Indeklima, Energi og Miljø", 2⟩, ⟨"Materialer", 2⟩] :=
  find_theme_pages_three_keywords _ 1 (by decide) (by decide) (by decide) (by decide)

/-! ## C8 and C10: shape of `build_json_structure` -/

/-- C8: the root object of `build_json_structure` has exactly the
top-level keys id, name, shortName, group, description and versions, and
every element of its versions list has exactly the keys version, date and
themes. -/
theorem build_json_structure_keys (nowIso : String)
    (meta : List (String × JValue)) (themes : JList) :
    objKeys (build_json_structure nowIso meta themes) =
      ["id", "name", "shortName", "group", "description", "versions"] ∧
    ∃ l : JList,
      jLookup (build_json_structure nowIso meta themes) "versions" = some (.arr l) ∧
      ∀ v ∈ jElems l, objKeys v = ["version", "date", "themes"] := by
  refine ⟨rfl, .cons _ .nil, rfl, ?_⟩
  intro v hv
  simp only [jElems, List.mem_singleton] at hv
  subst hv
  rfl

/-- C10: `build_json_structure` always produces exactly one version object
and its version string is `"1.0.0"`. -/
theorem build_json_structure_single_version (nowIso : String)
    (meta : List (String × JValue)) (themes : JList) :
    ∃ v : JValue,
      jLookup (build_json_structure nowIso meta themes) "versions" =
        some (.arr (.cons v .nil)) ∧
      jLookup v "version" = some (.str "1.0.0") :=
  ⟨_, rfl, rfl⟩

/-! ## C9: fixed fields of `build_task_item` -/

/-- C9: for every task number, in-range page number and manual metadata,
the task item has code `task number ++ ".1"`, a `select-single`
definition, and its first option is the fixed `option.0 / Ingen / 0`
entry, whether or not a table was extracted. -/
theorem build_task_item_fixed_fields (task_num : String) (page_number : Nat)
    (meta : ManualMeta) (_h1 : 1 ≤ page_number) (_h2 : page_number ≤ meta.pages.length) :
    (build_task_item (some task_num) page_number meta).code = task_num ++ ".1" ∧
    (build_task_item (some task_num) page_number meta).definition.type =
      "select-single" ∧
    (build_task_item (some task_num) page_number meta).definition.options.head? =
      some ⟨"option.0", "Ingen", 0⟩ :=
  ⟨rfl, rfl, rfl⟩

theorem build_task_item_fixed_fields_witness :
    (build_task_item (some "01") 1 ⟨"u", [⟨"", none⟩]⟩).code = "01" ++ ".1" ∧
    (build_task_item (some "01") 1 ⟨"u", [⟨"", none⟩]⟩).definition.type =
      "select-single" ∧
    (build_task_item (some "01") 1 ⟨"u", [⟨"", none⟩]⟩).definition.options.head? =
      some ⟨"option.0", "Ingen", 0⟩ :=
  build_task_item_fixed_fields "01" 1 ⟨"u", [⟨"", none⟩]⟩ (by decide) (by decide)

/-! ## C6: task codes are digit strings; uniqueness is not checked -/

/-- C6: the code extracted by `clean_task_name` is either `None` or a
non-empty string of digits, and no uniqueness or sequentiality check
exists: two matched blocks with the same code both enter the task list. -/
theorem task_codes_digits_and_unchecked :
    (∀ t : String, (clean_task_name t).code = none ∨
      ∃ c : String, (clean_task_name t).code = some c ∧ c ≠ "" ∧
        c.data.all Char.isDigit = true) ∧
    (taskGroupTasks "SOCIAL LIV" dupDemoText).map Prod.fst = [some "01", some "01"] := by
  constructor
  · intro t
    have hcode : (clean_task_name t).code =
        ((cleanLines t).find? isDigitsLine).map String.mk := rfl
    rcases hfind : (cleanLines t).find? isDigitsLine with _ | l
    · left
      rw [hcode, hfind]
      rfl
    · right
      refine ⟨String.mk l, by rw [hcode, hfind]; rfl, ?_, ?_⟩
      · have hp := List.find?_some hfind
        simp only [isDigitsLine, Bool.and_eq_true, Bool.not_eq_true'] at hp
        intro hc
        have hl : l = [] := by
          injection hc.trans (show ("" : String) = String.mk [] from rfl)
        rw [hl] at hp
        exact absurd hp.1 (by simp)
      · have hp := List.find?_some hfind
        simp only [isDigitsLine, Bool.and_eq_true] at hp
        exact hp.2
  · decide

/-! ## C1: the `SOCIAL LIV` block -/

/-- C1 counterexample: on the block `"SOCIAL LIV:\n01\nFælles gård"` no
produced task has code `"01"` together with title `"Fælles gård"` — the
title line itself serves as the lookahead terminator of the match and is
excluded from the captured group. -/
theorem task_block_claim_counterexample :
    ((build_task_group 0 "SOCIAL LIV" "DS1" c1Block c1Meta 1).items.all
      (fun t => !(t.code == some "01" && t.title == "Fælles gård"))) = true := by
  decide

/-- C1 amended: on the block `"SOCIAL LIV:\n01\nFælles gård"` the task
group contains exactly one task, with code `"01"` and empty title (the
title line is consumed by the lookahead, not by the captured group). -/
theorem task_block_title_truncated :
    (build_task_group 0 "SOCIAL LIV" "DS1" c1Block c1Meta 1).items.map
      (fun t => (t.code, t.title)) = [(some "01", "")] := by
  decide

/-! ## C4: totality of `extract_description` -/

/-- C4: `extract_description` is a total function: on every input it
returns a string; and when none of its patterns fires on the input, the
result is exactly the whitespace-normalised input. -/
theorem extract_description_total_nomatch (text : String) :
    ∃ s : String, extract_description text = s ∧
      (noPatterns text = true → s = wsNormalize text) := by
  refine ⟨extract_description text, rfl, fun h => ?_⟩
  unfold noPatterns at h
  simp only [Bool.and_eq_true, beq_iff_eq, Option.isNone_iff_eq_none] at h
  obtain ⟨⟨⟨⟨⟨h1, h2⟩, h3⟩, h4⟩, h5⟩, h6⟩ := h
  unfold extract_description wsNormalize
  rw [h1, h2, show descCore (normBase text) = normBase text from by
    unfold descCore; rw [h3], h4, h5, h6]

theorem extract_description_total_nomatch_witness :
    noPatterns "abc def" = true ∧
    extract_description "abc def" = wsNormalize "abc def" := by
  obtain ⟨s, hs, himp⟩ := extract_description_total_nomatch "abc def"
  exact ⟨by decide, hs.trans (himp (by decide))⟩

/-! ## C5: JSON round trip — list and character lemmas -/

theorem dropWhile_append_of_all (p : Char → Bool) (W l : List Char)
    (h : W.all p = true) : (W ++ l).dropWhile p = l.dropWhile p := by
  induction W with
  | nil => rfl
  | cons c t ih =>
    simp only [List.all_cons, Bool.and_eq_true] at h
    simp [List.dropWhile_cons, h.1, ih h.2]

theorem dropWhile_cons_of_neg (p : Char → Bool) (c : Char) (l : List Char)
    (h : p c = false) : (c :: l).dropWhile p = c :: l := by
  simp [List.dropWhile_cons, h]

theorem takeWhile_append_all (p : Char → Bool) (a b : List Char)
    (ha : a.all p = true) (hb : ∀ c l, b = c :: l → p c = false) :
    (a ++ b).takeWhile p = a := by
  induction a with
  | nil =>
    cases b with
    | nil => rfl
    | cons c l => simp [List.takeWhile_cons, hb c l rfl]
  | cons c t ih =>
    simp only [List.all_cons, Bool.and_eq_true] at ha
    simp [List.takeWhile_cons, ha.1, ih ha.2]

theorem char_beq_false_of_pred (c d : Char) (p : Char → Bool)
    (h : p c = true) (hd : p d = false) : (c == d) = false := by
  cases hx : c == d
  · rfl
  · rw [beq_iff_eq] at hx
    subst hx
    rw [h] at hd
    cases hd

theorem char_beq_false_of_pred' (c d : Char) (p : Char → Bool)
    (h : p c = true) (hd : p d = false) : (d == c) = false := by
  cases hx : d == c
  · rfl
  · rw [beq_iff_eq] at hx
    subst hx
    rw [h] at hd
    cases hd

theorem isDigit_not_ws (c : Char) (h : c.isDigit = true) : isJsonWs c = false := by
  unfold isJsonWs
  rw [char_beq_false_of_pred c ' ' Char.isDigit h (by decide),
      char_beq_false_of_pred c '\t' Char.isDigit h (by decide),
      char_beq_false_of_pred c '\n' Char.isDigit h (by decide),
      char_beq_false_of_pred c '\r' Char.isDigit h (by decide)]
  rfl

theorem safeFollow_ws_cons (c : Char) (l : List Char) (h : isJsonWs c = true) :
    safeFollow (c :: l) = true := by
  unfold isJsonWs at h
  simp only [Bool.or_eq_true, beq_iff_eq] at h
  rcases h with ((h | h) | h) | h <;> subst h <;> rfl

theorem nlInd_allWs (ind : Nat) : allWs (nlInd ind) = true := by
  unfold allWs nlInd
  simp only [List.all_cons, Bool.and_eq_true]
  refine ⟨rfl, ?_⟩
  rw [List.all_eq_true]
  intro c hc
  rw [List.eq_of_mem_replicate hc]
  rfl

/-! ### Decimal digits round trip -/

theorem digitChar_facts : ∀ m, m < 10 →
    ((Char.ofNat (48 + m)).isDigit = true ∧ (Char.ofNat (48 + m)).toNat = 48 + m) := by
  decide

theorem digitsToNat_append_one (a : List Char) (c : Char) :
    digitsToNat (a ++ [c]) = 10 * digitsToNat a + (c.toNat - 48) := by
  unfold digitsToNat
  rw [List.foldl_append]
  rfl

theorem natChars_props (n : Nat) :
    (natChars n).all Char.isDigit = true ∧ natChars n ≠ [] ∧
    digitsToNat (natChars n) = n := by
  induction n using Nat.strong_induction_on with
  | _ n ih =>
    unfold natChars
    split
    case isTrue h =>
      refine ⟨?_, by simp, ?_⟩
      · simp [List.all_cons, (digitChar_facts n h).1]
      · show digitsToNat [Char.ofNat (48 + n)] = n
        unfold digitsToNat
        simp [List.foldl, (digitChar_facts n h).2]
    case isFalse h =>
      have hlt : n / 10 < n := Nat.div_lt_self (by omega) (by omega)
      obtain ⟨iha, ihne, ihval⟩ := ih (n / 10) hlt
      have hm : n % 10 < 10 := Nat.mod_lt _ (by omega)
      refine ⟨?_, by simp, ?_⟩
      · rw [List.all_append]
        simp [iha, List.all_cons, (digitChar_facts _ hm).1]
      · rw [digitsToNat_append_one, ihval, (digitChar_facts _ hm).2]
        omega

theorem natChars_head (n : Nat) :
    ∃ c t, natChars n = c :: t ∧ c.isDigit = true := by
  induction n using Nat.strong_induction_on with
  | _ n ih =>
    unfold natChars
    split
    case isTrue h => exact ⟨_, _, rfl, (digitChar_facts n h).1⟩
    case isFalse h =>
      have hlt : n / 10 < n := Nat.div_lt_self (by omega) (by omega)
      obtain ⟨c, t, heq, hc⟩ := ih (n / 10) hlt
      exact ⟨c, t ++ [Char.ofNat (48 + n % 10)], by rw [heq]; rfl, hc⟩

theorem parsePosInt_natChars (n : Nat) (rest : List Char)
    (hr : safeFollow rest = true) :
    parsePosInt (natChars n ++ rest) = some (n, rest) := by
  obtain ⟨hall, hne, hval⟩ := natChars_props n
  have hrest : ∀ c l, rest = c :: l → Char.isDigit c = false := by
    intro c l hcl
    subst hcl
    unfold safeFollow at hr
    simp only [Bool.not_eq_true', Bool.or_eq_false_iff] at hr
    exact hr.1.1.1
  have htake : (natChars n ++ rest).takeWhile Char.isDigit = natChars n :=
    takeWhile_append_all _ _ _ hall hrest
  unfold parsePosInt
  rw [htake]
  have hne' : (natChars n).isEmpty = false := by
    cases he : natChars n with
    | nil => exact absurd he hne
    | cons c t => rfl
  simp only [hne', Bool.false_eq_true, if_false, List.drop_left]
  cases hre : rest with
  | nil => simp [hval]
  | cons c l =>
    subst hre
    unfold safeFollow at hr
    simp only [Bool.not_eq_true', Bool.or_eq_false_iff] at hr
    show (if (c == '.' || c == 'e' || c == 'E') = true then none
          else some (digitsToNat (natChars n), c :: l)) = some (n, c :: l)
    rw [hr.1.1.2, hr.1.2, hr.2]
    simp [hval]

theorem parseNumber_cons (c : Char) (t : List Char) :
    parseNumber (c :: t) =
      if c == '-' then (parsePosInt t).map (fun p => (.int (-(p.1 : Int)), p.2))
      else (parsePosInt (c :: t)).map (fun p => (.int (p.1 : Int), p.2)) := rfl

theorem parseNumber_intChars (n : Int) (rest : List Char)
    (hr : safeFollow rest = true) :
    parseNumber (intChars n ++ rest) = some (.int n, rest) := by
  unfold intChars
  split
  case isTrue h =>
    show parseNumber ('-' :: (natChars (-n).toNat ++ rest)) = _
    rw [parseNumber_cons]
    simp only [show (('-' : Char) == '-') = true from rfl, if_true]
    rw [parsePosInt_natChars _ _ hr]
    simp only [Option.map_some']
    have hn : (((-n).toNat : Int)) = -n := Int.toNat_of_nonneg (by omega)
    rw [hn]
    simp
  case isFalse h =>
    obtain ⟨c, t, heq, hc⟩ := natChars_head n.toNat
    rw [heq]
    show parseNumber (c :: (t ++ rest)) = _
    rw [parseNumber_cons, char_beq_false_of_pred c '-' Char.isDigit hc (by decide)]
    simp only [Bool.false_eq_true, if_false]
    rw [show c :: (t ++ rest) = (c :: t) ++ rest from rfl, ← heq,
      parsePosInt_natChars _ _ hr]
    simp only [Option.map_some']
    have hn : ((n.toNat : Int)) = n := Int.toNat_of_nonneg (by omega)
    rw [hn]

/-! ### String-escape round trip -/

theorem hexVal_hexDigit : ∀ x, x < 16 → hexVal (hexDigit x) = some x := by decide

theorem parseStrBody_cont (u : Char) (X t rest : List Char)
    (ih : parseStrBody X = some (t, rest)) :
    (match parseStrBody X with
     | some p => some (u :: p.1, p.2)
     | none => none) = some (u :: t, rest) := by
  rw [ih]

theorem parseStrBody_escList (l : List Char) : ∀ rest,
    parseStrBody (escList l ++ '"' :: rest) = some (l, rest) := by
  induction l with
  | nil =>
    intro rest
    show parseStrBody ('"' :: rest) = some ([], rest)
    rw [parseStrBody.eq_def]
    simp
  | cons c t ih =>
    intro rest
    show parseStrBody (escChar c ++ escList t ++ '"' :: rest) = some (c :: t, rest)
    unfold escChar
    split_ifs with h1 h2 h3 h4 h5 h6 h7 h8
    · rw [beq_iff_eq] at h1
      subst h1
      rw [show (['\\', '"'] ++ escList t ++ '"' :: rest) =
        '\\' :: '"' :: (escList t ++ '"' :: rest) from rfl, parseStrBody.eq_def]
      simp [unescape, ih rest]
    · rw [beq_iff_eq] at h2
      subst h2
      rw [show (['\\', '\\'] ++ escList t ++ '"' :: rest) =
        '\\' :: '\\' :: (escList t ++ '"' :: rest) from rfl, parseStrBody.eq_def]
      simp [unescape, ih rest]
    · rw [beq_iff_eq] at h3
      subst h3
      rw [show (['\\', 'n'] ++ escList t ++ '"' :: rest) =
        '\\' :: 'n' :: (escList t ++ '"' :: rest) from rfl, parseStrBody.eq_def]
      simp [unescape, ih rest]
    · rw [beq_iff_eq] at h4
      subst h4
      rw [show (['\\', 't'] ++ escList t ++ '"' :: rest) =
        '\\' :: 't' :: (escList t ++ '"' :: rest) from rfl, parseStrBody.eq_def]
      simp [unescape, ih rest]
    · rw [beq_iff_eq] at h5
      subst h5
      rw [show (['\\', 'r'] ++ escList t ++ '"' :: rest) =
        '\\' :: 'r' :: (escList t ++ '"' :: rest) from rfl, parseStrBody.eq_def]
      simp [unescape, ih rest]
    · rw [beq_iff_eq] at h6
      subst h6
      rw [show (['\\', 'b'] ++ escList t ++ '"' :: rest) =
        '\\' :: 'b' :: (escList t ++ '"' :: rest) from rfl, parseStrBody.eq_def]
      simp [unescape, ih rest]
    · rw [beq_iff_eq] at h7
      subst h7
      rw [show (['\\', 'f'] ++ escList t ++ '"' :: rest) =
        '\\' :: 'f' :: (escList t ++ '"' :: rest) from rfl, parseStrBody.eq_def]
      simp [unescape, ih rest]
    · -- other control characters: the \u00xx escape
      have hhi : hexVal (hexDigit (c.toNat / 16)) = some (c.toNat / 16) :=
        hexVal_hexDigit _ (by omega)
      have hlo : hexVal (hexDigit (c.toNat % 16)) = some (c.toNat % 16) :=
        hexVal_hexDigit _ (by omega)
      rw [show (['\\', 'u', '0', '0', hexDigit (c.toNat / 16), hexDigit (c.toNat % 16)] ++
            escList t ++ '"' :: rest) =
          '\\' :: 'u' :: '0' :: '0' :: hexDigit (c.toNat / 16) ::
            hexDigit (c.toNat % 16) :: (escList t ++ '"' :: rest) from rfl,
        parseStrBody.eq_def]
      simp only [show (('\\' : Char) == '"') = false from rfl,
        show (('\\' : Char) == '\\') = true from rfl,
        show (('u' : Char) == 'u') = true from rfl,
        show hexVal '0' = some 0 from rfl,
        Bool.false_eq_true, if_false, if_true, hhi, hlo, ih rest]
      rw [show ((0 * 16 + 0) * 16 + c.toNat / 16) * 16 + c.toNat % 16 = c.toNat from
        by omega, Char.ofNat_toNat]
    · -- ordinary character, emitted raw
      have h1' : (c == '"') = false := by
        cases hx : c == '"'
        · rfl
        · exact absurd hx h1
      have h2' : (c == '\\') = false := by
        cases hx : c == '\\'
        · rfl
        · exact absurd hx h2
      show parseStrBody (c :: (escList t ++ '"' :: rest)) = some (c :: t, rest)
      rw [parseStrBody.eq_def]
      simp only [h1', h2', Bool.false_eq_true, if_false, ih rest]

/-! ### Heads and weights of serialised values -/

theorem wVal_pos (v : JValue) : 1 ≤ wVal v := by
  cases v <;> simp [wVal]

theorem wList_pos (l : JList) : 1 ≤ wList l := by
  cases l <;> simp [wList]

theorem wObj_pos (m : JObj) : 1 ≤ wObj m := by
  cases m <;> simp [wObj]

theorem serVal_head_spec (ind : Nat) (v : JValue) :
    ∃ c t, serVal ind v = c :: t ∧ isJsonWs c = false ∧ (c == ']') = false ∧
      (c == '}') = false := by
  cases v with
  | null => exact ⟨'n', _, rfl, rfl, rfl, rfl⟩
  | bool b => cases b
              · exact ⟨'f', _, rfl, rfl, rfl, rfl⟩
              · exact ⟨'t', _, rfl, rfl, rfl, rfl⟩
  | int n =>
    show ∃ c t, intChars n = c :: t ∧ _
    unfold intChars
    split
    · exact ⟨'-', _, rfl, rfl, rfl, rfl⟩
    · obtain ⟨c, t, heq, hc⟩ := natChars_head n.toNat
      exact ⟨c, t, heq, isDigit_not_ws c hc,
        char_beq_false_of_pred c ']' Char.isDigit hc (by decide),
        char_beq_false_of_pred c '}' Char.isDigit hc (by decide)⟩
  | nan => exact ⟨'N', _, rfl, rfl, rfl, rfl⟩
  | inf => exact ⟨'I', _, rfl, rfl, rfl, rfl⟩
  | ninf => exact ⟨'-', _, rfl, rfl, rfl, rfl⟩
  | str s => exact ⟨'"', _, rfl, rfl, rfl, rfl⟩
  | arr l =>
    cases l with
    | nil => exact ⟨'[', _, rfl, rfl, rfl, rfl⟩
    | cons v tl => exact ⟨'[', _, rfl, rfl, rfl, rfl⟩
  | obj m =>
    cases m with
    | nil => exact ⟨'{', _, rfl, rfl, rfl, rfl⟩
    | cons k v tl => exact ⟨'{', _, rfl, rfl, rfl, rfl⟩

theorem safeFollow_ws_bracket (ws2 : List Char) (c : Char) (rest : List Char)
    (h : allWs ws2 = true) (hc : safeFollow (c :: rest) = true) :
    safeFollow (ws2 ++ c :: rest) = true := by
  cases ws2 with
  | nil => exact hc
  | cons d w =>
    unfold allWs at h
    simp only [List.all_cons, Bool.and_eq_true] at h
    exact safeFollow_ws_cons d _ h.1

/-! ### The serialiser/parser round trip -/

theorem parse_serVal_step (N : Nat)
    (ihE : ∀ (v : JValue) (tl : JList), wVal v + wList tl < N →
      ∀ fuel ind W ws2 rest, allWs W = true → allWs ws2 = true →
      wVal v + wList tl ≤ fuel →
      parseElems fuel
        (W ++ (serVal ind v ++ (serListRest ind tl ++ (ws2 ++ ']' :: rest)))) =
        some (.cons v tl, rest))
    (ihM : ∀ (k : String) (v : JValue) (tl : JObj), wVal v + wObj tl < N →
      ∀ fuel ind W ws2 rest, allWs W = true → allWs ws2 = true →
      wVal v + wObj tl ≤ fuel →
      parseMembers fuel
        (W ++ (serStr k ++ (':' :: ' ' :: (serVal ind v ++
          (serObjRest ind tl ++ (ws2 ++ '}' :: rest)))))) =
        some (.cons k v tl, rest)) :
    ∀ v : JValue, wVal v ≤ N → ∀ fuel ind W rest, allWs W = true →
      safeFollow rest = true → wVal v ≤ fuel →
      parseVal fuel (W ++ (serVal ind v ++ rest)) = some (v, rest) := by
  intro v hN fuel ind W rest hW hr hw
  cases fuel with
  | zero =>
    have := wVal_pos v
    omega
  | succ f =>
    cases v with
    | null =>
      have hd : (W ++ (serVal ind JValue.null ++ rest)).dropWhile isJsonWs =
          'n' :: 'u' :: 'l' :: 'l' :: rest := by
        rw [dropWhile_append_of_all _ _ _ hW]
        rfl
      rw [parseVal.eq_def]
      simp [hd, List.isPrefixOf, List.drop]
    | bool b =>
      cases b with
      | true =>
        have hd : (W ++ (serVal ind (JValue.bool true) ++ rest)).dropWhile isJsonWs =
            't' :: 'r' :: 'u' :: 'e' :: rest := by
          rw [dropWhile_append_of_all _ _ _ hW]
          rfl
        rw [parseVal.eq_def]
        simp [hd, List.isPrefixOf, List.drop]
      | false =>
        have hd : (W ++ (serVal ind (JValue.bool false) ++ rest)).dropWhile isJsonWs =
            'f' :: 'a' :: 'l' :: 's' :: 'e' :: rest := by
          rw [dropWhile_append_of_all _ _ _ hW]
          rfl
        rw [parseVal.eq_def]
        simp [hd, List.isPrefixOf, List.drop]
    | nan =>
      have hd : (W ++ (serVal ind JValue.nan ++ rest)).dropWhile isJsonWs =
          'N' :: 'a' :: 'N' :: rest := by
        rw [dropWhile_append_of_all _ _ _ hW]
        rfl
      rw [parseVal.eq_def]
      simp [hd, List.isPrefixOf, List.drop]
    | inf =>
      have hd : (W ++ (serVal ind JValue.inf ++ rest)).dropWhile isJsonWs =
          'I' :: 'n' :: 'f' :: 'i' :: 'n' :: 'i' :: 't' :: 'y' :: rest := by
        rw [dropWhile_append_of_all _ _ _ hW]
        rfl
      rw [parseVal.eq_def]
      simp [hd, List.isPrefixOf, List.drop]
    | ninf =>
      have hd : (W ++ (serVal ind JValue.ninf ++ rest)).dropWhile isJsonWs =
          '-' :: 'I' :: 'n' :: 'f' :: 'i' :: 'n' :: 'i' :: 't' :: 'y' :: rest := by
        rw [dropWhile_append_of_all _ _ _ hW]
        rfl
      rw [parseVal.eq_def]
      simp [hd, List.isPrefixOf, List.drop]
    | str s =>
      have hd : (W ++ (serVal ind (JValue.str s) ++ rest)).dropWhile isJsonWs =
          '"' :: ((escList s.data ++ ['"']) ++ rest) := by
        rw [dropWhile_append_of_all _ _ _ hW]
        rfl
      have hd2 : (escList s.data ++ ['"']) ++ rest = escList s.data ++ '"' :: rest := by
        simp [List.append_assoc]
      rw [parseVal.eq_def]
      simp [hd, hd2, List.isPrefixOf, parseStrBody_escList s.data rest]
    | int n =>
      by_cases hn : n < 0
      · have hichars : intChars n = '-' :: natChars (-n).toNat := by
          unfold intChars
          rw [if_pos hn]
        obtain ⟨c, t, heq, hc⟩ := natChars_head (-n).toNat
        have hd : (W ++ (serVal ind (JValue.int n) ++ rest)).dropWhile isJsonWs =
            '-' :: (natChars (-n).toNat ++ rest) := by
          rw [dropWhile_append_of_all _ _ _ hW,
            show serVal ind (JValue.int n) ++ rest =
              '-' :: (natChars (-n).toNat ++ rest) from by
                rw [show serVal ind (JValue.int n) = intChars n from rfl, hichars]
                rfl]
          exact dropWhile_cons_of_neg _ _ _ rfl
        have hI : ('I' == c) = false :=
          char_beq_false_of_pred' c 'I' Char.isDigit hc (by decide)
        rw [parseVal.eq_def]
        simp only [hd, List.isPrefixOf, heq]
        simp [hI]
        rw [show ('-' :: c :: (t ++ rest)) = intChars n ++ rest from by
            rw [hichars, heq]; rfl,
          parseNumber_intChars n rest hr]
      · have hichars : intChars n = natChars n.toNat := by
          unfold intChars
          rw [if_neg hn]
        obtain ⟨c, t, heq, hc⟩ := natChars_head n.toNat
        have hd : (W ++ (serVal ind (JValue.int n) ++ rest)).dropWhile isJsonWs =
            c :: (t ++ rest) := by
          rw [dropWhile_append_of_all _ _ _ hW,
            show serVal ind (JValue.int n) ++ rest = c :: (t ++ rest) from by
              rw [show serVal ind (JValue.int n) = intChars n from rfl, hichars, heq]
              rfl]
          exact dropWhile_cons_of_neg _ _ _ (isDigit_not_ws c hc)
        rw [parseVal.eq_def]
        simp only [hd, List.isPrefixOf,
          char_beq_false_of_pred' c 'n' Char.isDigit hc (by decide),
          char_beq_false_of_pred' c 't' Char.isDigit hc (by decide),
          char_beq_false_of_pred' c 'f' Char.isDigit hc (by decide),
          char_beq_false_of_pred' c 'N' Char.isDigit hc (by decide),
          char_beq_false_of_pred' c 'I' Char.isDigit hc (by decide),
          char_beq_false_of_pred' c '-' Char.isDigit hc (by decide),
          char_beq_false_of_pred c '"' Char.isDigit hc (by decide),
          char_beq_false_of_pred c '[' Char.isDigit hc (by decide),
          char_beq_false_of_pred c '{' Char.isDigit hc (by decide),
          Bool.false_and, Bool.false_eq_true, if_false]
        rw [show c :: (t ++ rest) = intChars n ++ rest from by rw [hichars, heq]; rfl,
          parseNumber_intChars n rest hr]
    | arr l =>
      cases l with
      | nil =>
        have hd : (W ++ (serVal ind (JValue.arr JList.nil) ++ rest)).dropWhile isJsonWs =
            '[' :: ']' :: rest := by
          rw [dropWhile_append_of_all _ _ _ hW]
          rfl
        rw [parseVal.eq_def]
        simp [hd, List.isPrefixOf, isJsonWs, List.dropWhile_cons]
      | cons v tl =>
        obtain ⟨c0, t0, heq0, hnws0, hnb0, _⟩ := serVal_head_spec (ind + 1) v
        have hR : serVal ind (JValue.arr (JList.cons v tl)) ++ rest =
            '[' :: (nlInd (ind + 1) ++ (serVal (ind + 1) v ++
              (serListRest (ind + 1) tl ++ (nlInd ind ++ ']' :: rest)))) := by
          show ('[' :: (nlInd (ind + 1) ++ serVal (ind + 1) v ++
            serListRest (ind + 1) tl ++ nlInd ind ++ [']'])) ++ rest = _
          simp [List.append_assoc]
        have hd : (W ++ (serVal ind (JValue.arr (JList.cons v tl)) ++ rest)).dropWhile
            isJsonWs = '[' :: (nlInd (ind + 1) ++ (serVal (ind + 1) v ++
              (serListRest (ind + 1) tl ++ (nlInd ind ++ ']' :: rest)))) := by
          rw [dropWhile_append_of_all _ _ _ hW, hR]
          exact dropWhile_cons_of_neg _ _ _ rfl
        have hr1 : (nlInd (ind + 1) ++ (serVal (ind + 1) v ++
            (serListRest (ind + 1) tl ++ (nlInd ind ++ ']' :: rest)))).dropWhile
            isJsonWs = c0 :: (t0 ++ (serListRest (ind + 1) tl ++
              (nlInd ind ++ ']' :: rest))) := by
          rw [dropWhile_append_of_all _ _ _ (nlInd_allWs _), heq0]
          exact dropWhile_cons_of_neg _ _ _ hnws0
        have hweights : wVal v + wList tl ≤ f := by
          simp only [wVal, wList] at hw
          omega
        have hrec := ihE v tl (by simp only [wVal, wList] at hN; omega) f (ind + 1)
          (nlInd (ind + 1)) (nlInd ind) rest (nlInd_allWs _) (nlInd_allWs _) hweights
        rw [parseVal.eq_def]
        simp [hd, hr1, hnb0, List.isPrefixOf, hrec]
    | obj m =>
      cases m with
      | nil =>
        have hd : (W ++ (serVal ind (JValue.obj JObj.nil) ++ rest)).dropWhile isJsonWs =
            '{' :: '}' :: rest := by
          rw [dropWhile_append_of_all _ _ _ hW]
          rfl
        rw [parseVal.eq_def]
        simp [hd, List.isPrefixOf, isJsonWs, List.dropWhile_cons]
      | cons k v tl =>
        have hR : serVal ind (JValue.obj (JObj.cons k v tl)) ++ rest =
            '{' :: (nlInd (ind + 1) ++ (serStr k ++ (':' :: ' ' ::
              (serVal (ind + 1) v ++ (serObjRest (ind + 1) tl ++
                (nlInd ind ++ '}' :: rest)))))) := by
          show ('{' :: (nlInd (ind + 1) ++ serStr k ++ ':' :: ' ' ::
            serVal (ind + 1) v ++ serObjRest (ind + 1) tl ++ nlInd ind ++ ['}'])) ++
              rest = _
          simp [List.append_assoc, serStr]
        have hd : (W ++ (serVal ind (JValue.obj (JObj.cons k v tl)) ++ rest)).dropWhile
            isJsonWs = '{' :: (nlInd (ind + 1) ++ (serStr k ++ (':' :: ' ' ::
              (serVal (ind + 1) v ++ (serObjRest (ind + 1) tl ++
                (nlInd ind ++ '}' :: rest)))))) := by
          rw [dropWhile_append_of_all _ _ _ hW, hR]
          exact dropWhile_cons_of_neg _ _ _ rfl
        have hr1 : (nlInd (ind + 1) ++ (serStr k ++ (':' :: ' ' ::
            (serVal (ind + 1) v ++ (serObjRest (ind + 1) tl ++
              (nlInd ind ++ '}' :: rest)))))).dropWhile isJsonWs =
            '"' :: (escList k.data ++ ('"' :: (':' :: ' ' ::
              (serVal (ind + 1) v ++ (serObjRest (ind + 1) tl ++
                (nlInd ind ++ '}' :: rest)))))) := by
          rw [dropWhile_append_of_all _ _ _ (nlInd_allWs _),
            show serStr k ++ (':' :: ' ' :: (serVal (ind + 1) v ++
              (serObjRest (ind + 1) tl ++ (nlInd ind ++ '}' :: rest)))) =
              '"' :: (escList k.data ++ ('"' :: (':' :: ' ' ::
                (serVal (ind + 1) v ++ (serObjRest (ind + 1) tl ++
                  (nlInd ind ++ '}' :: rest)))))) from by
              show ('"' :: (escList k.data ++ ['"'])) ++ _ = _
              simp [List.append_assoc]]
          exact dropWhile_cons_of_neg _ _ _ rfl
        have hweights : wVal v + wObj tl ≤ f := by
          simp only [wVal, wObj] at hw
          omega
        have hrec := ihM k v tl (by simp only [wVal, wObj] at hN; omega) f (ind + 1)
          (nlInd (ind + 1)) (nlInd ind) rest (nlInd_allWs _) (nlInd_allWs _) hweights
        rw [parseVal.eq_def]
        simp [hd, hr1, List.isPrefixOf, hrec]

theorem parse_serElems_step (N : Nat)
    (ihV : ∀ v : JValue, wVal v < N → ∀ fuel ind W rest, allWs W = true →
      safeFollow rest = true → wVal v ≤ fuel →
      parseVal fuel (W ++ (serVal ind v ++ rest)) = some (v, rest))
    (ihE : ∀ (v : JValue) (tl : JList), wVal v + wList tl < N →
      ∀ fuel ind W ws2 rest, allWs W = true → allWs ws2 = true →
      wVal v + wList tl ≤ fuel →
      parseElems fuel
        (W ++ (serVal ind v ++ (serListRest ind tl ++ (ws2 ++ ']' :: rest)))) =
        some (.cons v tl, rest)) :
    ∀ (v : JValue) (tl : JList), wVal v + wList tl ≤ N → ∀ fuel ind W ws2 rest,
      allWs W = true → allWs ws2 = true → wVal v + wList tl ≤ fuel →
      parseElems fuel
        (W ++ (serVal ind v ++ (serListRest ind tl ++ (ws2 ++ ']' :: rest)))) =
        some (.cons v tl, rest) := by
  intro v tl hN fuel ind W ws2 rest hW hw2 hwt
  cases fuel with
  | zero =>
    have h1 := wVal_pos v
    have h2 := wList_pos tl
    omega
  | succ f =>
    have hsf : safeFollow (serListRest ind tl ++ (ws2 ++ ']' :: rest)) = true := by
      cases tl with
      | nil =>
        show safeFollow ([] ++ (ws2 ++ ']' :: rest)) = true
        rw [List.nil_append]
        exact safeFollow_ws_bracket ws2 ']' rest hw2 rfl
      | cons v2 tl2 =>
        show safeFollow ((',' :: (nlInd ind ++ serVal ind v2 ++ serListRest ind tl2)) ++
          (ws2 ++ ']' :: rest)) = true
        rfl
    have hv := ihV v (by have := wList_pos tl; omega) f ind W
      (serListRest ind tl ++ (ws2 ++ ']' :: rest)) hW hsf
      (by have := wList_pos tl; omega)
    rw [parseElems.eq_def]
    simp only [hv]
    cases tl with
    | nil =>
      have hdrop : (serListRest ind JList.nil ++ (ws2 ++ ']' :: rest)).dropWhile
          isJsonWs = ']' :: rest := by
        show ([] ++ (ws2 ++ ']' :: rest)).dropWhile isJsonWs = _
        rw [List.nil_append, dropWhile_append_of_all _ _ _ hw2]
        exact dropWhile_cons_of_neg _ _ _ rfl
      simp [hdrop]
    | cons v2 tl2 =>
      have hdrop : (serListRest ind (JList.cons v2 tl2) ++ (ws2 ++ ']' :: rest)).dropWhile
          isJsonWs = ',' :: ((nlInd ind ++ serVal ind v2 ++ serListRest ind tl2) ++
            (ws2 ++ ']' :: rest)) := by
        show ((',' :: (nlInd ind ++ serVal ind v2 ++ serListRest ind tl2)) ++
          (ws2 ++ ']' :: rest)).dropWhile isJsonWs = _
        exact dropWhile_cons_of_neg _ _ _ rfl
      have hrec := ihE v2 tl2
        (by simp only [wList] at hN
            have := wVal_pos v
            omega) f ind (nlInd ind) ws2 rest (nlInd_allWs ind) hw2
        (by simp only [wList] at hwt
            have := wVal_pos v
            omega)
      simp only [hdrop]
      rw [show (nlInd ind ++ serVal ind v2 ++ serListRest ind tl2) ++
          (ws2 ++ ']' :: rest) = nlInd ind ++ (serVal ind v2 ++
            (serListRest ind tl2 ++ (ws2 ++ ']' :: rest))) from by
          simp [List.append_assoc]]
      simp [hrec]

theorem parse_serMembers_step (N : Nat)
    (ihV : ∀ v : JValue, wVal v < N → ∀ fuel ind W rest, allWs W = true →
      safeFollow rest = true → wVal v ≤ fuel →
      parseVal fuel (W ++ (serVal ind v ++ rest)) = some (v, rest))
    (ihM : ∀ (k : String) (v : JValue) (tl : JObj), wVal v + wObj tl < N →
      ∀ fuel ind W ws2 rest, allWs W = true → allWs ws2 = true →
      wVal v + wObj tl ≤ fuel →
      parseMembers fuel
        (W ++ (serStr k ++ (':' :: ' ' :: (serVal ind v ++
          (serObjRest ind tl ++ (ws2 ++ '}' :: rest)))))) =
        some (.cons k v tl, rest)) :
    ∀ (k : String) (v : JValue) (tl : JObj), wVal v + wObj tl ≤ N →
      ∀ fuel ind W ws2 rest, allWs W = true → allWs ws2 = true →
      wVal v + wObj tl ≤ fuel →
      parseMembers fuel
        (W ++ (serStr k ++ (':' :: ' ' :: (serVal ind v ++
          (serObjRest ind tl ++ (ws2 ++ '}' :: rest)))))) =
        some (.cons k v tl, rest) := by
  intro k v tl hN fuel ind W ws2 rest hW hw2 hwt
  cases fuel with
  | zero =>
    have h1 := wVal_pos v
    have h2 := wObj_pos tl
    omega
  | succ f =>
    have hd : (W ++ (serStr k ++ (':' :: ' ' :: (serVal ind v ++
        (serObjRest ind tl ++ (ws2 ++ '}' :: rest)))))).dropWhile isJsonWs =
        '"' :: (escList k.data ++ ('"' :: (':' :: ' ' :: (serVal ind v ++
          (serObjRest ind tl ++ (ws2 ++ '}' :: rest)))))) := by
      rw [dropWhile_append_of_all _ _ _ hW,
        show serStr k ++ (':' :: ' ' :: (serVal ind v ++
          (serObjRest ind tl ++ (ws2 ++ '}' :: rest)))) =
          '"' :: (escList k.data ++ ('"' :: (':' :: ' ' :: (serVal ind v ++
            (serObjRest ind tl ++ (ws2 ++ '}' :: rest)))))) from by
          show ('"' :: (escList k.data ++ ['"'])) ++ _ = _
          simp [List.append_assoc]]
      exact dropWhile_cons_of_neg _ _ _ rfl
    have hsf : safeFollow (serObjRest ind tl ++ (ws2 ++ '}' :: rest)) = true := by
      cases tl with
      | nil =>
        show safeFollow ([] ++ (ws2 ++ '}' :: rest)) = true
        rw [List.nil_append]
        exact safeFollow_ws_bracket ws2 '}' rest hw2 rfl
      | cons k2 v2 tl2 =>
        show safeFollow ((',' :: (nlInd ind ++ serStr k2 ++ ':' :: ' ' ::
          serVal ind v2 ++ serObjRest ind tl2)) ++ (ws2 ++ '}' :: rest)) = true
        rfl
    have hv' : parseVal f (' ' :: (serVal ind v ++
        (serObjRest ind tl ++ (ws2 ++ '}' :: rest)))) =
        some (v, serObjRest ind tl ++ (ws2 ++ '}' :: rest)) :=
      ihV v (by have := wObj_pos tl; omega) f ind [' ']
        (serObjRest ind tl ++ (ws2 ++ '}' :: rest)) rfl hsf
        (by have := wObj_pos tl; omega)
    rw [parseMembers.eq_def]
    simp [hd, parseStrBody_escList k.data, isJsonWs, List.dropWhile_cons, hv']
    cases tl with
    | nil =>
      have hdrop : (serObjRest ind JObj.nil ++ (ws2 ++ '}' :: rest)).dropWhile
          isJsonWs = '}' :: rest := by
        show ([] ++ (ws2 ++ '}' :: rest)).dropWhile isJsonWs = _
        rw [List.nil_append, dropWhile_append_of_all _ _ _ hw2]
        exact dropWhile_cons_of_neg _ _ _ rfl
      simp [hdrop]
    | cons k2 v2 tl2 =>
      have hdrop : (serObjRest ind (JObj.cons k2 v2 tl2) ++
          (ws2 ++ '}' :: rest)).dropWhile isJsonWs =
          ',' :: ((nlInd ind ++ serStr k2 ++ ':' :: ' ' :: serVal ind v2 ++
            serObjRest ind tl2) ++ (ws2 ++ '}' :: rest)) := by
        show ((',' :: (nlInd ind ++ serStr k2 ++ ':' :: ' ' :: serVal ind v2 ++
          serObjRest ind tl2)) ++ (ws2 ++ '}' :: rest)).dropWhile isJsonWs = _
        exact dropWhile_cons_of_neg _ _ _ rfl
      have hrec := ihM k2 v2 tl2
        (by simp only [wObj] at hN
            have := wVal_pos v
            omega) f ind (nlInd ind) ws2 rest (nlInd_allWs ind) hw2
        (by simp only [wObj] at hwt
            have := wVal_pos v
            omega)
      simp only [hdrop]
      rw [show (nlInd ind ++ serStr k2 ++ ':' :: ' ' :: serVal ind v2 ++
          serObjRest ind tl2) ++ (ws2 ++ '}' :: rest) =
          nlInd ind ++ (serStr k2 ++ (':' :: ' ' :: (serVal ind v2 ++
            (serObjRest ind tl2 ++ (ws2 ++ '}' :: rest))))) from by
          simp [List.append_assoc]]
      simp [hrec]

theorem parse_ser_all (N : Nat) :
    (∀ v : JValue, wVal v ≤ N → ∀ fuel ind W rest, allWs W = true →
      safeFollow rest = true → wVal v ≤ fuel →
      parseVal fuel (W ++ (serVal ind v ++ rest)) = some (v, rest)) ∧
    (∀ (v : JValue) (tl : JList), wVal v + wList tl ≤ N → ∀ fuel ind W ws2 rest,
      allWs W = true → allWs ws2 = true → wVal v + wList tl ≤ fuel →
      parseElems fuel
        (W ++ (serVal ind v ++ (serListRest ind tl ++ (ws2 ++ ']' :: rest)))) =
        some (.cons v tl, rest)) ∧
    (∀ (k : String) (v : JValue) (tl : JObj), wVal v + wObj tl ≤ N →
      ∀ fuel ind W ws2 rest, allWs W = true → allWs ws2 = true →
      wVal v + wObj tl ≤ fuel →
      parseMembers fuel
        (W ++ (serStr k ++ (':' :: ' ' :: (serVal ind v ++
          (serObjRest ind tl ++ (ws2 ++ '}' :: rest)))))) =
        some (.cons k v tl, rest)) := by
  induction N using Nat.strong_induction_on with
  | _ N ih =>
    have ihV : ∀ v : JValue, wVal v < N → ∀ fuel ind W rest, allWs W = true →
        safeFollow rest = true → wVal v ≤ fuel →
        parseVal fuel (W ++ (serVal ind v ++ rest)) = some (v, rest) :=
      fun v h => (ih (wVal v) h).1 v (Nat.le_refl _)
    have ihE : ∀ (v : JValue) (tl : JList), wVal v + wList tl < N →
        ∀ fuel ind W ws2 rest, allWs W = true → allWs ws2 = true →
        wVal v + wList tl ≤ fuel →
        parseElems fuel
          (W ++ (serVal ind v ++ (serListRest ind tl ++ (ws2 ++ ']' :: rest)))) =
          some (.cons v tl, rest) :=
      fun v tl h => (ih (wVal v + wList tl) h).2.1 v tl (Nat.le_refl _)
    have ihM : ∀ (k : String) (v : JValue) (tl : JObj), wVal v + wObj tl < N →
        ∀ fuel ind W ws2 rest, allWs W = true → allWs ws2 = true →
        wVal v + wObj tl ≤ fuel →
        parseMembers fuel
          (W ++ (serStr k ++ (':' :: ' ' :: (serVal ind v ++
            (serObjRest ind tl ++ (ws2 ++ '}' :: rest)))))) =
          some (.cons k v tl, rest) :=
      fun k v tl h => (ih (wVal v + wObj tl) h).2.2 k v tl (Nat.le_refl _)
    exact ⟨parse_serVal_step N ihE ihM, parse_serElems_step N ihV ihE,
      parse_serMembers_step N ihV ihM⟩

theorem parse_serVal_full (v : JValue) (fuel ind : Nat) (W rest : List Char)
    (hW : allWs W = true) (hr : safeFollow rest = true) (hw : wVal v ≤ fuel) :
    parseVal fuel (W ++ (serVal ind v ++ rest)) = some (v, rest) :=
  (parse_ser_all (wVal v)).1 v (Nat.le_refl _) fuel ind W rest hW hr hw

/-! ### The serialisation is long enough for the parser's fuel -/

mutual

theorem wVal_le_len (v : JValue) : ∀ ind : Nat, wVal v ≤ (serVal ind v).length := by
  intro ind
  cases v with
  | null => simp [wVal, serVal]
  | bool b => cases b <;> simp [wVal, serVal]
  | int n =>
    show wVal (JValue.int n) ≤ (intChars n).length
    have hlen : 1 ≤ (intChars n).length := by
      unfold intChars
      split
      · simp
      · obtain ⟨-, hne, -⟩ := natChars_props n.toNat
        cases he : natChars n.toNat with
        | nil => exact absurd he hne
        | cons c t => simp [he]
    simpa [wVal] using hlen
  | nan => simp [wVal, serVal]
  | inf => simp [wVal, serVal]
  | ninf => simp [wVal, serVal]
  | str s =>
    show wVal (JValue.str s) ≤ (serStr s).length
    simp [wVal, serStr]
  | arr l =>
    cases l with
    | nil => simp [wVal, wList, serVal]
    | cons v tl =>
      have h1 := wVal_le_len v (ind + 1)
      have h2 := wList_le_len tl (ind + 1)
      have h3 : 1 ≤ (nlInd (ind + 1)).length := by simp [nlInd]
      have h4 : 1 ≤ (nlInd ind).length := by simp [nlInd]
      simp only [wVal, wList, serVal, List.length_cons, List.length_append]
      omega
  | obj m =>
    cases m with
    | nil => simp [wVal, wObj, serVal]
    | cons k v tl =>
      have h1 := wVal_le_len v (ind + 1)
      have h2 := wObj_le_len tl (ind + 1)
      have h3 : 1 ≤ (nlInd (ind + 1)).length := by simp [nlInd]
      have h4 : 1 ≤ (nlInd ind).length := by simp [nlInd]
      simp only [wVal, wObj, serVal, List.length_cons, List.length_append]
      omega

theorem wList_le_len (tl : JList) : ∀ ind : Nat,
    wList tl ≤ (serListRest ind tl).length + 1 := by
  intro ind
  cases tl with
  | nil => simp [wList, serListRest]
  | cons v tl2 =>
    have h1 := wVal_le_len v ind
    have h2 := wList_le_len tl2 ind
    simp only [wList, serListRest, List.length_cons, List.length_append]
    omega

theorem wObj_le_len (m : JObj) : ∀ ind : Nat,
    wObj m ≤ (serObjRest ind m).length + 1 := by
  intro ind
  cases m with
  | nil => simp [wObj, serObjRest]
  | cons k v tl2 =>
    have h1 := wVal_le_len v ind
    have h2 := wObj_le_len tl2 ind
    simp only [wObj, serObjRest, List.length_cons, List.length_append]
    omega

end

/-- The round trip at the level of `save_json` / `json.load`: what `dumps`
writes, `parseJson` reads back structurally unchanged. -/
theorem parseJson_dumps (v : JValue) : parseJson (dumps v) = some v := by
  have hw : wVal v ≤ (serVal 0 v).length + 1 :=
    le_trans (wVal_le_len v 0) (Nat.le_succ _)
  have h := parse_serVal_full v ((serVal 0 v).length + 1) 0 [] [] rfl rfl hw
  simp only [List.nil_append, List.append_nil] at h
  unfold parseJson dumps
  rw [show (String.mk (serVal 0 v)).data = serVal 0 v from rfl, h]
  rfl

/-! ### Python equality is reflexive on NaN-free values -/

theorem pyEq_refl_all (N : Nat) :
    (∀ v : JValue, wVal v ≤ N → noNaNV v = true → pyEqV v v = true) ∧
    (∀ l : JList, wList l ≤ N → noNaNL l = true → pyEqL l l = true) ∧
    (∀ m : JObj, wObj m ≤ N → noNaNO m = true → pyEqO m m = true) := by
  induction N using Nat.strong_induction_on with
  | _ N ih =>
    refine ⟨?_, ?_, ?_⟩
    · intro v hN hn
      cases v with
      | null => rfl
      | bool b => simp [pyEqV]
      | int n => simp [pyEqV]
      | nan => simp [noNaNV] at hn
      | inf => rfl
      | ninf => rfl
      | str s => simp [pyEqV]
      | arr l =>
        have h := (ih (wList l) (by simp only [wVal] at hN; omega)).2.1 l
          (Nat.le_refl _) (by simpa [noNaNV] using hn)
        simpa [pyEqV] using h
      | obj m =>
        have h := (ih (wObj m) (by simp only [wVal] at hN; omega)).2.2 m
          (Nat.le_refl _) (by simpa [noNaNV] using hn)
        simpa [pyEqV] using h
    · intro l hN hn
      cases l with
      | nil => rfl
      | cons v tl =>
        simp only [noNaNL, Bool.and_eq_true] at hn
        have h1 := (ih (wVal v)
          (by simp only [wList] at hN; have := wList_pos tl; omega)).1 v
          (Nat.le_refl _) hn.1
        have h2 := (ih (wList tl)
          (by simp only [wList] at hN; have := wVal_pos v; omega)).2.1 tl
          (Nat.le_refl _) hn.2
        simp [pyEqL, h1, h2]
    · intro m hN hn
      cases m with
      | nil => rfl
      | cons k v tl =>
        simp only [noNaNO, Bool.and_eq_true] at hn
        have h1 := (ih (wVal v)
          (by simp only [wObj] at hN; have := wObj_pos tl; omega)).1 v
          (Nat.le_refl _) hn.1
        have h2 := (ih (wObj tl)
          (by simp only [wObj] at hN; have := wVal_pos v; omega)).2.2 tl
          (Nat.le_refl _) hn.2
        simp [pyEqO, h1, h2]

theorem pyEq_refl_of_noNaN (v : JValue) (h : noNaNV v = true) : pyEqV v v = true :=
  (pyEq_refl_all (wVal v)).1 v (Nat.le_refl _) h

/-! ### NaN-freedom of the built structure -/

theorem noNaN_dictGet (m : List (String × JValue)) (k : String) (d : JValue)
    (hm : m.all (fun kv => noNaNV kv.2) = true) (hd : noNaNV d = true) :
    noNaNV (dictGet m k d) = true := by
  unfold dictGet
  cases hf : m.find? (fun kv => kv.1 == k) with
  | none => exact hd
  | some kv =>
    have hmem := List.mem_of_find?_eq_some hf
    exact List.all_eq_true.mp hm kv hmem

theorem noNaN_dictGet_str (m : List (String × JValue))
    (hm : m.all (fun kv => noNaNV kv.2) = true) (k s : String) :
    noNaNV (dictGet m k (.str s)) = true := noNaN_dictGet m k _ hm rfl

theorem noNaN_build (nowIso : String) (meta : List (String × JValue)) (themes : JList)
    (hm : meta.all (fun kv => noNaNV kv.2) = true) (ht : noNaNL themes = true) :
    noNaNV (build_json_structure nowIso meta themes) = true := by
  unfold build_json_structure
  simp [noNaNV, noNaNO, noNaNL, noNaN_dictGet_str meta hm, ht]

/-! ## C5: the JSON round trip of `build_json_structure` output -/

/-- C5 counterexample: with a manual_meta holding the float NaN, the value
written by `save_json` deserialises successfully but is not equal (in
Python's `==`, under which `nan != nan`) to the original — the round trip
is not "unchanged". -/
theorem json_roundtrip_nan_counterexample :
    (parseJson (dumps c5CexRoot)).map (fun w => pyEqV w c5CexRoot) = some false := by
  rw [parseJson_dumps c5CexRoot]
  exact congrArg some (by decide)

/-- C5 amended: for every manual_meta dictionary and theme list whose
values are free of NaN and infinite floats, the object produced by
`build_json_structure` round-trips unchanged through the serialisation of
`save_json` followed by deserialisation: parsing returns it structurally
identical, and it is Python-equal to itself. -/
theorem json_roundtrip_safe (nowIso : String) (meta : List (String × JValue))
    (themes : JList) (hm : meta.all (fun kv => noNaNV kv.2) = true)
    (ht : noNaNL themes = true) :
    parseJson (dumps (build_json_structure nowIso meta themes)) =
      some (build_json_structure nowIso meta themes) ∧
    pyEqV (build_json_structure nowIso meta themes)
      (build_json_structure nowIso meta themes) = true :=
  ⟨parseJson_dumps _, pyEq_refl_of_noNaN _ (noNaN_build nowIso meta themes hm ht)⟩

theorem json_roundtrip_safe_witness :
    parseJson (dumps (build_json_structure "2024-01-01T00:00:00"
      [("id", JValue.str "x")] JList.nil)) =
      some (build_json_structure "2024-01-01T00:00:00"
        [("id", JValue.str "x")] JList.nil) ∧
    pyEqV (build_json_structure "2024-01-01T00:00:00" [("id", JValue.str "x")]
        JList.nil)
      (build_json_structure "2024-01-01T00:00:00" [("id", JValue.str "x")]
        JList.nil) = true :=
  json_roundtrip_safe "2024-01-01T00:00:00" [("id", JValue.str "x")] JList.nil
    (by decide) (by decide)

end OpenFrame
